import Mathlib

/-!
Verification of the tango puzzle generator and game session
(src/js/generator.js, src/js/game.js).

Boards are N x N grids of cell values (0 = empty, 1 = sun, 2 = moon),
represented as lists of rows.  Adjacency constraints are grids of
optional symbols (EQUAL or CROSS).  The JavaScript while-loops are
embedded as fuel-based recursion where the fuel provably dominates the
number of iterations (the deduction loop fills one empty cell per
iteration, so the number of empty cells is sufficient fuel; the
backtracking filler advances one cell per recursive call, so
size*size fuel is sufficient).  The 32-bit integer arithmetic of the
seeded RNG is embedded over Nat with explicit reduction mod 2^32, and
floats in [0,1) are embedded as exact fractions (numerator/denominator
pairs of naturals), over which the source's Math.floor and Math.ceil
are exact natural-number computations.
-/

/-- Cell grid: list of rows, each row a list of cell values. -/
abbrev Board := List (List Nat)

/-- Read a cell; out-of-range reads default to 0 (all source reads are
in range on well-shaped boards). -/
def getCell (b : Board) (r c : Nat) : Nat :=
  (b.getD r []).getD c 0

/-- Write a cell (no-op out of range, as List.set is). -/
def boardSet (b : Board) (r c v : Nat) : Board :=
  b.set r ((b.getD r []).set c v)

/-- createEmptyBoard from generator.js. -/
def createEmptyBoard (size : Nat) : Board :=
  List.replicate size (List.replicate size 0)

/-- A board has exactly `size` rows of length `size`. -/
def shapeB (b : Board) (size : Nat) : Prop :=
  b.length = size ∧ ∀ row ∈ b, row.length = size

instance shapeB_decidable (b : Board) (size : Nat) : Decidable (shapeB b size) :=
  inferInstanceAs (Decidable (b.length = size ∧ ∀ row ∈ b, row.length = size))

/-- Constraint symbols '=' and 'x'; None is `Option.none`. -/
inductive CSym where
  | EQUAL
  | CROSS
deriving DecidableEq, Repr

abbrev ConstraintGrid := List (List (Option CSym))

/-- The two constraint grids: h is N x (N-1), v is (N-1) x N. -/
structure Constraints where
  h : ConstraintGrid
  v : ConstraintGrid
deriving DecidableEq, Repr

def getSym (g : ConstraintGrid) (r c : Nat) : Option CSym :=
  (g.getD r []).getD c none

def setSym (g : ConstraintGrid) (r c : Nat) (s : Option CSym) : ConstraintGrid :=
  g.set r ((g.getD r []).set c s)

/-- getOpposite from generator.js / game.js. -/
def getOpposite (v : Nat) : Nat :=
  if v = 1 then 2 else 1

/-- A forced move of the deduction engine. -/
structure Move where
  r : Nat
  c : Nat
  val : Nat
deriving DecidableEq, Repr

def isValidPosI (size : Nat) (r c : Int) : Bool :=
  0 ≤ r && r < size && 0 ≤ c && c < size

/-- checkLine from LevelGenerator.findLogicalMove: if both cells at the
given offsets are on the board, filled and equal, return the opposite
value. -/
def checkLine (b : Board) (size : Nat) (r c : Nat) (dr1 dc1 dr2 dc2 : Int) :
    Option Nat :=
  let r1 : Int := r + dr1
  let c1 : Int := c + dc1
  let r2 : Int := r + dr2
  let c2 : Int := c + dc2
  if isValidPosI size r1 c1 && isValidPosI size r2 c2 then
    let v1 := getCell b r1.toNat c1.toNat
    let v2 := getCell b r2.toNat c2.toNat
    if v1 != 0 && v1 == v2 then some (getOpposite v1) else none
  else none

/-- Run-avoidance checks of one empty cell, in source order. -/
def rule1At (b : Board) (size : Nat) (r c : Nat) : Option Move :=
  if getCell b r c ≠ 0 then none
  else match checkLine b size r c 0 (-1) 0 (-2) with
  | some val => some ⟨r, c, val⟩
  | none => match checkLine b size r c 0 1 0 2 with
  | some val => some ⟨r, c, val⟩
  | none => match checkLine b size r c 0 (-1) 0 1 with
  | some val => some ⟨r, c, val⟩
  | none => match checkLine b size r c (-1) 0 (-2) 0 with
  | some val => some ⟨r, c, val⟩
  | none => match checkLine b size r c 1 0 2 0 with
  | some val => some ⟨r, c, val⟩
  | none => match checkLine b size r c (-1) 0 1 0 with
  | some val => some ⟨r, c, val⟩
  | none => none

/-- Priority 1 scan: run-avoidance over all cells in row-major order. -/
def rule1 (b : Board) (size : Nat) : Option Move :=
  (List.range size).findSome? fun r =>
    (List.range size).findSome? fun c => rule1At b size r c

/-- Priority 2 scan, horizontal constraints. -/
def rule2H (b : Board) (size : Nat) (cs : Constraints) : Option Move :=
  (List.range size).findSome? fun r =>
    (List.range (size - 1)).findSome? fun c =>
      match getSym cs.h r c with
      | none => none
      | some sym =>
        let v1 := getCell b r c
        let v2 := getCell b r (c + 1)
        if v1 ≠ 0 ∧ v2 = 0 then
          some ⟨r, c + 1, match sym with | CSym.EQUAL => v1 | CSym.CROSS => getOpposite v1⟩
        else if v1 = 0 ∧ v2 ≠ 0 then
          some ⟨r, c, match sym with | CSym.EQUAL => v2 | CSym.CROSS => getOpposite v2⟩
        else none

/-- Priority 2 scan, vertical constraints. -/
def rule2V (b : Board) (size : Nat) (cs : Constraints) : Option Move :=
  (List.range (size - 1)).findSome? fun r =>
    (List.range size).findSome? fun c =>
      match getSym cs.v r c with
      | none => none
      | some sym =>
        let v1 := getCell b r c
        let v2 := getCell b (r + 1) c
        if v1 ≠ 0 ∧ v2 = 0 then
          some ⟨r + 1, c, match sym with | CSym.EQUAL => v1 | CSym.CROSS => getOpposite v1⟩
        else if v1 = 0 ∧ v2 ≠ 0 then
          some ⟨r, c, match sym with | CSym.EQUAL => v2 | CSym.CROSS => getOpposite v2⟩
        else none

def sunsInRow (b : Board) (size r : Nat) : Nat :=
  (List.range size).countP fun c => getCell b r c == 1

def moonsInRow (b : Board) (size r : Nat) : Nat :=
  (List.range size).countP fun c => getCell b r c == 2

def firstEmptyInRow (b : Board) (size r : Nat) : Option Nat :=
  (List.range size).find? fun c => getCell b r c == 0

def sunsInCol (b : Board) (size c : Nat) : Nat :=
  (List.range size).countP fun r => getCell b r c == 1

def moonsInCol (b : Board) (size c : Nat) : Nat :=
  (List.range size).countP fun r => getCell b r c == 2

def firstEmptyInCol (b : Board) (size c : Nat) : Option Nat :=
  (List.range size).find? fun r => getCell b r c == 0

/-- Priority 3 scan, row balance (`suns === size / 2` over JavaScript
real division is `2 * suns = size` over the integers). -/
def rule3Row (b : Board) (size : Nat) : Option Move :=
  (List.range size).findSome? fun r =>
    match firstEmptyInRow b size r with
    | none => none
    | some c0 =>
      if 2 * sunsInRow b size r = size then some ⟨r, c0, 2⟩
      else if 2 * moonsInRow b size r = size then some ⟨r, c0, 1⟩
      else none

/-- Priority 3 scan, column balance. -/
def rule3Col (b : Board) (size : Nat) : Option Move :=
  (List.range size).findSome? fun c =>
    match firstEmptyInCol b size c with
    | none => none
    | some r0 =>
      if 2 * sunsInCol b size c = size then some ⟨r0, c, 2⟩
      else if 2 * moonsInCol b size c = size then some ⟨r0, c, 1⟩
      else none

/-- LevelGenerator.findLogicalMove: the rule cascade in source order. -/
def findLogicalMove (b : Board) (size : Nat) (cs : Constraints) : Option Move :=
  match rule1 b size with
  | some m => some m
  | none => match rule2H b size cs with
  | some m => some m
  | none => match rule2V b size cs with
  | some m => some m
  | none => match rule3Row b size with
  | some m => some m
  | none => rule3Col b size

/-- Number of empty cells in the size x size window. -/
def countEmpty (b : Board) (size : Nat) : Nat :=
  ((List.range size).map fun r =>
    (List.range size).countP fun c => getCell b r c == 0).sum

/-- The final full-board check of solveLogically. -/
def boardFull (b : Board) (size : Nat) : Bool :=
  (List.range size).all fun r =>
    (List.range size).all fun c => getCell b r c != 0

/-- The while-loop of solveLogically, with explicit fuel. -/
def solveLoop (size : Nat) (cs : Constraints) : Nat → Board → Board
  | 0, b => b
  | fuel + 1, b =>
    match findLogicalMove b size cs with
    | none => b
    | some m => solveLoop size cs fuel (boardSet b m.r m.c m.val)

/-- LevelGenerator.solveLogically: run the deduction loop to its
fixpoint (each applied move fills an empty cell, so `countEmpty` is
sufficient fuel), then report whether the board is full, together with
the board the loop produced. -/
def solveLogically (b : Board) (size : Nat) (cs : Constraints) : Bool × Board :=
  let b' := solveLoop size cs (countEmpty b size) b
  (boardFull b' size, b')

/-- isValidPlacement from generator.js (`count >= size / 2` over
JavaScript real division is `2 * count >= size`). -/
def isValidPlacement (b : Board) (row col size piece : Nat) : Bool :=
  if 2 ≤ col && getCell b row (col - 1) == piece && getCell b row (col - 2) == piece then
    false
  else if 2 ≤ row && getCell b (row - 1) col == piece && getCell b (row - 2) col == piece then
    false
  else
    let rowCount := (List.range col).countP fun c => getCell b row c == piece
    if size ≤ 2 * rowCount then false
    else
      let colCount := (List.range row).countP fun r => getCell b r col == piece
      if size ≤ 2 * colCount then false
      else if col = size - 1 then
        !((List.range row).any fun r =>
          (List.range size).all fun c =>
            getCell b r c == (if c = col then piece else getCell b row c))
      else true

/-- fillBoard from generator.js: deterministic backtracking in
row-major order, piece order alternating by cell parity.  Fuel
decreases once per recursive call; the canonical call passes
`size * size` fuel, which is exactly the recursion depth to the base
case `row = size`, so the fuel-exhaustion branch is unreachable
from `generate`. -/
def fillBoard (size : Nat) : Nat → Board → Nat → Nat → Option Board
  | 0, b, row, _ => if row = size then some b else none
  | fuel + 1, b, row, col =>
    if row = size then some b
    else
      let nextRow := if col = size - 1 then row + 1 else row
      let nextCol := if col = size - 1 then 0 else col + 1
      let pos := row * size + col
      let first := if pos % 2 = 0 then 1 else 2
      let second := if pos % 2 = 0 then 2 else 1
      match (if isValidPlacement b row col size first then
               fillBoard size fuel (boardSet b row col first) nextRow nextCol
             else none) with
      | some b' => some b'
      | none =>
        if isValidPlacement b row col size second then
          fillBoard size fuel (boardSet b row col second) nextRow nextCol
        else none

/-- 32-bit Math.imul. -/
def imul32 (a b : Nat) : Nat := (a * b) % 4294967296

/-- `h << 13 | h >>> 19` on 32 bits. -/
def rotl13 (h : Nat) : Nat := ((h <<< 13) % 4294967296) ||| (h >>> 19)

/-- One character step of SeededRNG.hashSeed. -/
def hashChar (h code : Nat) : Nat := rotl13 (imul32 (h ^^^ code) 3432918353)

/-- The state captured by the closure hashSeed returns (seed strings
are embedded as their lists of UTF-16 code units). -/
def hashSeedInit (s : List Nat) : Nat :=
  s.foldl hashChar ((1779033703 ^^^ s.length) % 4294967296)

/-- One call of the closure returned by hashSeed: advance h and return
it. -/
def hashStep (h : Nat) : Nat :=
  let h1 := imul32 (h ^^^ (h >>> 16)) 2246822507
  let h2 := imul32 (h1 ^^^ (h1 >>> 13)) 3266489909
  h2 ^^^ (h2 >>> 16)

/-- The mulberry32-style avalanche of SeededRNG.next. -/
def mulberryMix (t0 : Nat) : Nat :=
  let t1 := imul32 (t0 ^^^ (t0 >>> 15)) (t0 ||| 1)
  let t2 := t1 ^^^ ((t1 + imul32 (t1 ^^^ (t1 >>> 7)) (t1 ||| 61)) % 4294967296)
  t2 ^^^ (t2 >>> 14)

/-- An exact nonnegative fraction num/den, the embedding of a
JavaScript float in [0,1) (valid when num < den). -/
structure Frac where
  num : Nat
  den : Nat
deriving DecidableEq, Repr

/-- Math.floor (q * k) for a fraction q, exact over naturals. -/
def floorMulNat (q : Frac) (k : Nat) : Nat := q.num * k / q.den

/-- Math.ceil (n * q) for a fraction q, exact over naturals. -/
def ceilMulNat (n : Nat) (q : Frac) : Nat := (n * q.num + q.den - 1) / q.den

/-- The generator's random source: either a SeededRNG (seed string plus
32-bit state) or the ambient Math.random stream (modelled as an index
into an external entropy sequence). -/
inductive Rng where
  | seeded (seed : List Nat) (h : Nat)
  | unseeded (idx : Nat)
deriving DecidableEq, Repr

/-- LevelGenerator.random: SeededRNG.next when seeded, Math.random
otherwise. -/
def randomDraw (ent : Nat → Frac) : Rng → Frac × Rng
  | Rng.seeded s h =>
    let h' := hashStep h
    (⟨mulberryMix h', 4294967296⟩, Rng.seeded s h')
  | Rng.unseeded i => (ent i, Rng.unseeded (i + 1))

/-- The destructuring swap `[a[i], a[j]] = [a[j], a[i]]`. -/
def listSwap {α : Type} (d : α) (a : List α) (i j : Nat) : List α :=
  (a.set i (a.getD j d)).set j (a.getD i d)

/-- The Fisher-Yates loop of LevelGenerator.shuffle, counting i down. -/
def shuffleGo {α : Type} (ent : Nat → Frac) (d : α) : Nat → List α → Rng → List α × Rng
  | 0, a, rng => (a, rng)
  | i + 1, a, rng =>
    let (q, rng') := randomDraw ent rng
    let j := floorMulNat q (i + 2)
    shuffleGo ent d i (listSwap d a (i + 1) j) rng'

/-- LevelGenerator.shuffle. -/
def shuffle {α : Type} (ent : Nat → Frac) (d : α) (a : List α) (rng : Rng) : List α × Rng :=
  shuffleGo ent d (a.length - 1) a rng

/-- A removable constraint slot ({type: 'h'|'v', r, c}). -/
inductive ConsItem where
  | hSlot (r c : Nat)
  | vSlot (r c : Nat)
deriving DecidableEq, Repr

/-- The constraint items, h slots first, both in row-major order. -/
def consItems (size : Nat) : List ConsItem :=
  ((List.range size).flatMap fun r =>
    (List.range (size - 1)).map fun c => ConsItem.hSlot r c)
  ++ ((List.range (size - 1)).flatMap fun r =>
    (List.range size).map fun c => ConsItem.vSlot r c)

/-- The cell items in row-major order. -/
def cellItems (size : Nat) : List (Nat × Nat) :=
  (List.range size).flatMap fun r =>
    (List.range size).map fun c => (r, c)

inductive Difficulty where
  | medium
  | hard
  | expert
deriving DecidableEq, Repr

/-- The difficulty table (constraintsKeep, cellsKeep); the decimal
float literals of the source are the exact fractions 0.06 = 6/100,
0.03 = 3/100, 0.015 = 15/1000, 0.01 = 1/100 and 0.005 = 5/1000. -/
def difficultySettings : Difficulty → Frac × Frac
  | Difficulty.medium => (⟨6, 100⟩, ⟨3, 100⟩)
  | Difficulty.hard => (⟨3, 100⟩, ⟨15, 1000⟩)
  | Difficulty.expert => (⟨1, 100⟩, ⟨5, 1000⟩)

/-- One step of the first reduction pass: tentatively clear a
constraint slot, keep the removal iff the puzzle stays solvable, else
write the original symbol back. -/
def phase1Step (size : Nat) (puzzle : Board) (cs : Constraints) (cur : Nat) :
    ConsItem → Constraints × Nat
  | ConsItem.hSlot r c =>
    let originalValue := getSym cs.h r c
    let cs' : Constraints := ⟨setSym cs.h r c none, cs.v⟩
    if (solveLogically puzzle size cs').fst then (cs', cur - 1)
    else (⟨setSym cs'.h r c originalValue, cs'.v⟩, cur)
  | ConsItem.vSlot r c =>
    let originalValue := getSym cs.v r c
    let cs' : Constraints := ⟨cs.h, setSym cs.v r c none⟩
    if (solveLogically puzzle size cs').fst then (cs', cur - 1)
    else (⟨cs'.h, setSym cs'.v r c originalValue⟩, cur)

/-- First reduction pass over the shuffled constraint items, with the
early-stopping check at the head of each iteration. -/
def phase1 (size : Nat) (puzzle : Board) (targetC : Nat) :
    List ConsItem → Constraints → Nat → Constraints × Nat
  | [], cs, cur => (cs, cur)
  | item :: rest, cs, cur =>
    if cur ≤ targetC then (cs, cur)
    else
      let (cs', cur') := phase1Step size puzzle cs cur item
      phase1 size puzzle targetC rest cs' cur'

/-- One step of the second reduction pass: tentatively empty a cell,
keep iff still solvable, else write the original value back. -/
def phase2Step (size : Nat) (cs : Constraints) (puzzle : Board) (cur : Nat)
    (rc : Nat × Nat) : Board × Nat :=
  let originalValue := getCell puzzle rc.1 rc.2
  let puzzle' := boardSet puzzle rc.1 rc.2 0
  if (solveLogically puzzle' size cs).fst then (puzzle', cur - 1)
  else (boardSet puzzle' rc.1 rc.2 originalValue, cur)

/-- Second reduction pass over the shuffled cells. -/
def phase2 (size : Nat) (cs : Constraints) (targetCells : Nat) :
    List (Nat × Nat) → Board → Nat → Board × Nat
  | [], puzzle, cur => (puzzle, cur)
  | rc :: rest, puzzle, cur =>
    if cur ≤ targetCells then (puzzle, cur)
    else
      let (puzzle', cur') := phase2Step size cs puzzle cur rc
      phase2 size cs targetCells rest puzzle' cur'

/-- The maximal horizontal constraint grid derived from a solution. -/
def deriveH (sol : Board) (size : Nat) : ConstraintGrid :=
  (List.range size).map fun r =>
    (List.range (size - 1)).map fun c =>
      if getCell sol r c = getCell sol r (c + 1) then some CSym.EQUAL
      else some CSym.CROSS

/-- The maximal vertical constraint grid derived from a solution. -/
def deriveV (sol : Board) (size : Nat) : ConstraintGrid :=
  (List.range (size - 1)).map fun r =>
    (List.range size).map fun c =>
      if getCell sol r c = getCell sol (r + 1) c then some CSym.EQUAL
      else some CSym.CROSS

/-- The final duplicate-row scan of generate. -/
def hasDupRows (sol : Board) (size : Nat) : Bool :=
  (List.range size).any fun r1 =>
    (List.range size).any fun r2 =>
      decide (r1 < r2) &&
        ((List.range size).all fun c => getCell sol r1 c == getCell sol r2 c)

/-- `if (seed) setSeed(seed) else rng = null`: the empty string is
falsy in JavaScript, so only a non-empty seed string installs a
SeededRNG. -/
def initialRng : Option (List Nat) → Rng
  | some s => if s.length = 0 then Rng.unseeded 0 else Rng.seeded s (hashSeedInit s)
  | none => Rng.unseeded 0

/-- `seed: this.rng ? this.rng.seed : null`. -/
def rngSeedField : Rng → Option (List Nat)
  | Rng.seeded s _ => some s
  | Rng.unseeded _ => none

/-- The record generate returns. -/
structure GeneratedLevel where
  solution : Board
  initialBoard : Board
  constraints : Constraints
  seed : Option (List Nat)
deriving DecidableEq, Repr

/-- LevelGenerator.generate (seeded variant of generator.js):
difficulty-aware, constraints reduced before cells, with early
stopping at the ceil-based targets and a final duplicate-row check.
Math.random is the external entropy stream `ent`. -/
def generate (size : Nat) (seed : Option (List Nat)) (difficulty : Difficulty)
    (ent : Nat → Frac) : Option GeneratedLevel :=
  let settings := difficultySettings difficulty
  match fillBoard size (size * size) (createEmptyBoard size) 0 0 with
  | none => none
  | some solution =>
    let constraints0 : Constraints := ⟨deriveH solution size, deriveV solution size⟩
    let totalConstraints := size * (size - 1) + (size - 1) * size
    let rng0 := initialRng seed
    let (items, rng1) := shuffle ent (ConsItem.hSlot 0 0) (consItems size) rng0
    let (cells, rng2) := shuffle ent (0, 0) (cellItems size) rng1
    let targetConstraints := ceilMulNat totalConstraints settings.1
    let targetCells := ceilMulNat (size * size) settings.2
    let (constraints1, _) := phase1 size solution targetConstraints items constraints0 totalConstraints
    let (puzzle2, _) := phase2 size constraints1 targetCells cells solution (size * size)
    if hasDupRows solution size then none
    else some ⟨solution, puzzle2, constraints1, rngSeedField rng2⟩

/-- A deduction move together with its rule description, as the game
session's findLogicalMove returns it. -/
structure MoveR where
  r : Nat
  c : Nat
  val : Nat
  reason : String
deriving DecidableEq, Repr

/-- The mutable session state of game.js (fields the studied methods
touch). -/
structure Game where
  size : Nat
  board : Board
  initialBoard : Board
  solution : Board
  constraints : Constraints
  history : List Board
deriving DecidableEq, Repr

/-- Game.setCell: refuse clue cells, else snapshot the board for undo
and write the value. -/
def Game.setCell (g : Game) (row col value : Nat) : Bool × Game :=
  if getCell g.initialBoard row col ≠ 0 then (false, g)
  else
    (true, { g with
      history := g.history ++ [g.board]
      board := boardSet g.board row col value })

/-- Game.cycleCell: 0 -> 1 -> 2 -> 0 on non-clue cells. -/
def Game.cycleCell (g : Game) (row col : Nat) : Bool × Game :=
  if getCell g.initialBoard row col ≠ 0 then (false, g)
  else
    let current := getCell g.board row col
    let next := (current + 1) % 3
    Game.setCell g row col next

/-- Game.checkLine: boolean test that both offset cells are on the
board, filled and equal. -/
def Game.checkLine (g : Game) (r c : Nat) (dr1 dc1 dr2 dc2 : Int) : Bool :=
  let r1 : Int := r + dr1
  let c1 : Int := c + dc1
  let r2 : Int := r + dr2
  let c2 : Int := c + dc2
  if isValidPosI g.size r1 c1 && isValidPosI g.size r2 c2 then
    let v1 := getCell g.board r1.toNat c1.toNat
    let v2 := getCell g.board r2.toNat c2.toNat
    v1 != 0 && v1 == v2
  else false

/-- Priority 1 of Game.findLogicalMove on one empty cell. -/
def Game.rule1At (g : Game) (r c : Nat) : Option MoveR :=
  if getCell g.board r c ≠ 0 then none
  else if Game.checkLine g r c 0 (-1) 0 (-2) then
    some ⟨r, c, getOpposite (getCell g.board r (c - 1)), "Avoids three identical pieces in a row"⟩
  else if Game.checkLine g r c 0 1 0 2 then
    some ⟨r, c, getOpposite (getCell g.board r (c + 1)), "Avoids three identical pieces in a row"⟩
  else if Game.checkLine g r c 0 (-1) 0 1 then
    some ⟨r, c, getOpposite (getCell g.board r (c - 1)), "Avoids three identical pieces in a row"⟩
  else if Game.checkLine g r c (-1) 0 (-2) 0 then
    some ⟨r, c, getOpposite (getCell g.board (r - 1) c), "Avoids three identical pieces in a column"⟩
  else if Game.checkLine g r c 1 0 2 0 then
    some ⟨r, c, getOpposite (getCell g.board (r + 1) c), "Avoids three identical pieces in a column"⟩
  else if Game.checkLine g r c (-1) 0 1 0 then
    some ⟨r, c, getOpposite (getCell g.board (r - 1) c), "Avoids three identical pieces in a column"⟩
  else none

def Game.rule1 (g : Game) : Option MoveR :=
  (List.range g.size).findSome? fun r =>
    (List.range g.size).findSome? fun c => Game.rule1At g r c

def Game.rule2H (g : Game) : Option MoveR :=
  (List.range g.size).findSome? fun r =>
    (List.range (g.size - 1)).findSome? fun c =>
      match getSym g.constraints.h r c with
      | none => none
      | some sym =>
        let v1 := getCell g.board r c
        let v2 := getCell g.board r (c + 1)
        if v1 ≠ 0 ∧ v2 = 0 then
          some ⟨r, c + 1,
            (match sym with | CSym.EQUAL => v1 | CSym.CROSS => getOpposite v1),
            (match sym with
             | CSym.EQUAL => "Must be equal to neighbor"
             | CSym.CROSS => "Must be different from neighbor")⟩
        else if v1 = 0 ∧ v2 ≠ 0 then
          some ⟨r, c,
            (match sym with | CSym.EQUAL => v2 | CSym.CROSS => getOpposite v2),
            (match sym with
             | CSym.EQUAL => "Must be equal to neighbor"
             | CSym.CROSS => "Must be different from neighbor")⟩
        else none

def Game.rule2V (g : Game) : Option MoveR :=
  (List.range (g.size - 1)).findSome? fun r =>
    (List.range g.size).findSome? fun c =>
      match getSym g.constraints.v r c with
      | none => none
      | some sym =>
        let v1 := getCell g.board r c
        let v2 := getCell g.board (r + 1) c
        if v1 ≠ 0 ∧ v2 = 0 then
          some ⟨r + 1, c,
            (match sym with | CSym.EQUAL => v1 | CSym.CROSS => getOpposite v1),
            (match sym with
             | CSym.EQUAL => "Must be equal to neighbor"
             | CSym.CROSS => "Must be different from neighbor")⟩
        else if v1 = 0 ∧ v2 ≠ 0 then
          some ⟨r, c,
            (match sym with | CSym.EQUAL => v2 | CSym.CROSS => getOpposite v2),
            (match sym with
             | CSym.EQUAL => "Must be equal to neighbor"
             | CSym.CROSS => "Must be different from neighbor")⟩
        else none

def Game.rule3Row (g : Game) : Option MoveR :=
  (List.range g.size).findSome? fun r =>
    match firstEmptyInRow g.board g.size r with
    | none => none
    | some c0 =>
      if 2 * sunsInRow g.board g.size r = g.size then
        some ⟨r, c0, 2, "Row has maximum Suns, filling remaining with Moons"⟩
      else if 2 * moonsInRow g.board g.size r = g.size then
        some ⟨r, c0, 1, "Row has maximum Moons, filling remaining with Suns"⟩
      else none

def Game.rule3Col (g : Game) : Option MoveR :=
  (List.range g.size).findSome? fun c =>
    match firstEmptyInCol g.board g.size c with
    | none => none
    | some r0 =>
      if 2 * sunsInCol g.board g.size c = g.size then
        some ⟨r0, c, 2, "Column has maximum Suns, filling remaining with Moons"⟩
      else if 2 * moonsInCol g.board g.size c = g.size then
        some ⟨r0, c, 1, "Column has maximum Moons, filling remaining with Suns"⟩
      else none

/-- Game.findLogicalMove: identical rule cascade, each move carrying
its rule description. -/
def Game.findLogicalMove (g : Game) : Option MoveR :=
  match Game.rule1 g with
  | some m => some m
  | none => match Game.rule2H g with
  | some m => some m
  | none => match Game.rule2V g with
  | some m => some m
  | none => match Game.rule3Row g with
  | some m => some m
  | none => Game.rule3Col g

/-- Game.getHint: apply a found logical move to the session board via
setCell; otherwise reveal a solution cell chosen by Math.random
(modelled by the rational draw `q`). -/
def Game.getHint (g : Game) (q : Frac) : Option MoveR × Game :=
  match Game.findLogicalMove g with
  | some m => (some m, (Game.setCell g m.r m.c m.val).snd)
  | none =>
    let candidates0 := (List.range g.size).flatMap fun r =>
      (List.range g.size).flatMap fun c =>
        if getCell g.board r c ≠ getCell g.solution r c ∧ getCell g.board r c = 0 then
          [Move.mk r c (getCell g.solution r c)]
        else []
    let candidates := if candidates0.isEmpty then
        (List.range g.size).flatMap fun r =>
          (List.range g.size).flatMap fun c =>
            if getCell g.board r c ≠ getCell g.solution r c then
              [Move.mk r c (getCell g.solution r c)]
            else []
      else candidates0
    if candidates.isEmpty then (none, g)
    else
      let hint := candidates.getD (floorMulNat q candidates.length) (Move.mk 0 0 0)
      (some ⟨hint.r, hint.c, hint.val, "Revealed by solution (complex logic needed)."⟩,
        (Game.setCell g hint.r hint.c hint.val).snd)

/-! ### Auxiliary specification-level definitions -/

/-- Forget the rule description of a session move. -/
def dropReason (m : MoveR) : Move := ⟨m.r, m.c, m.val⟩

def demoEnt : Nat → Frac := fun _ => ⟨0, 1⟩

def demoEnt2 : Nat → Frac := fun _ => ⟨1, 2⟩

def demoLevelSeeded : GeneratedLevel :=
  (generate 4 (some [65]) Difficulty.medium demoEnt).getD ⟨[], [], ⟨[], []⟩, none⟩

def demoLevelUnseeded : GeneratedLevel :=
  (generate 4 none Difficulty.medium demoEnt).getD ⟨[], [], ⟨[], []⟩, none⟩

/-- Invariant of the backtracking filler at row-major position pos:
well-shaped; cells before pos are placed (1 or 2); cells from pos on
are empty; no run of three equal values lies wholly inside the placed
region (rows and columns); and no row or column holds more than
size / 2 of either piece. -/
def fillInv (b : Board) (size pos : Nat) : Prop :=
  shapeB b size
  ∧ (∀ r c, r < size → c < size → r * size + c < pos →
      getCell b r c = 1 ∨ getCell b r c = 2)
  ∧ (∀ r c, r < size → c < size → pos ≤ r * size + c → getCell b r c = 0)
  ∧ (∀ r c, r < size → c + 2 < size → r * size + (c + 2) < pos →
      ¬(getCell b r c = getCell b r (c + 1) ∧ getCell b r (c + 1) = getCell b r (c + 2)))
  ∧ (∀ r c, r + 2 < size → c < size → (r + 2) * size + c < pos →
      ¬(getCell b r c = getCell b (r + 1) c ∧ getCell b (r + 1) c = getCell b (r + 2) c))
  ∧ (∀ r, r < size → 2 * sunsInRow b size r ≤ size ∧ 2 * moonsInRow b size r ≤ size)
  ∧ (∀ c, c < size → 2 * sunsInCol b size c ≤ size ∧ 2 * moonsInCol b size c ≤ size)

/-- A partial board agrees with a solution on its filled cells. -/
def agreesWith (b sol : Board) (size : Nat) : Prop :=
  ∀ r c, r < size → c < size → getCell b r c ≠ 0 → getCell b r c = getCell sol r c

/-- Every remaining constraint symbol is satisfied by the solution. -/
def csConsistent (cs : Constraints) (sol : Board) (size : Nat) : Prop :=
  (∀ r c, r < size → c < size - 1 →
    (getSym cs.h r c = some CSym.EQUAL → getCell sol r c = getCell sol r (c + 1))
    ∧ (getSym cs.h r c = some CSym.CROSS → getCell sol r c ≠ getCell sol r (c + 1)))
  ∧ (∀ r c, r < size - 1 → c < size →
    (getSym cs.v r c = some CSym.EQUAL → getCell sol r c = getCell sol (r + 1) c)
    ∧ (getSym cs.v r c = some CSym.CROSS → getCell sol r c ≠ getCell sol (r + 1) c))

/-- The structural validity facts about a full solution board that the
soundness argument uses. -/
def solValid (sol : Board) (size : Nat) : Prop :=
  (∀ r c, r < size → c < size → getCell sol r c = 1 ∨ getCell sol r c = 2)
  ∧ (∀ r, r < size → 2 * sunsInRow sol size r = size ∧ 2 * moonsInRow sol size r = size)
  ∧ (∀ c, c < size → 2 * sunsInCol sol size c = size ∧ 2 * moonsInCol sol size c = size)
  ∧ (∀ r c, r < size → c + 2 < size →
      ¬(getCell sol r c = getCell sol r (c + 1) ∧ getCell sol r (c + 1) = getCell sol r (c + 2)))
  ∧ (∀ r c, r + 2 < size → c < size →
      ¬(getCell sol r c = getCell sol (r + 1) c ∧ getCell sol (r + 1) c = getCell sol (r + 2) c))

/-- csa is a removal-only restriction of csb. -/
def subCS (csa csb : Constraints) : Prop :=
  (∀ r c sym, getSym csa.h r c = some sym → getSym csb.h r c = some sym)
  ∧ (∀ r c sym, getSym csa.v r c = some sym → getSym csb.v r c = some sym)

/-- Non-None entries of the h grid inside the size x (size-1) window. -/
def countH (g : ConstraintGrid) (size : Nat) : Nat :=
  ((List.range size).map fun r =>
    (List.range (size - 1)).countP fun c => (getSym g r c).isSome).sum

/-- Non-None entries of the v grid inside the (size-1) x size window. -/
def countV (g : ConstraintGrid) (size : Nat) : Nat :=
  ((List.range (size - 1)).map fun r =>
    (List.range size).countP fun c => (getSym g r c).isSome).sum

/-- Remaining constraint symbols of a level. -/
def countSymsIn (cs : Constraints) (size : Nat) : Nat :=
  countH cs.h size + countV cs.v size

/-- Remaining non-empty clue cells of a board. -/
def countFilled (b : Board) (size : Nat) : Nat :=
  ((List.range size).map fun r =>
    (List.range size).countP fun c => getCell b r c != 0).sum

/-! ### List index and counting helpers -/

theorem getD_set_self {α : Type} (l : List α) (i : Nat) (a d : α)
    (h : i < l.length) : (l.set i a).getD i d = a := by
  simp [List.getD_eq_getElem?_getD, List.getElem?_set_self h]

theorem getD_set_ne {α : Type} (l : List α) {i j : Nat} (a d : α)
    (h : i ≠ j) : (l.set i a).getD j d = l.getD j d := by
  simp [List.getD_eq_getElem?_getD, List.getElem?_set_ne h]

theorem set_getD_self {α : Type} (l : List α) (i : Nat) (d : α) :
    l.set i (l.getD i d) = l := by
  rcases Nat.lt_or_ge i l.length with h | h
  · apply List.ext_getElem?
    intro n
    by_cases hn : i = n
    · subst hn
      rw [List.getElem?_set_self h, List.getD_eq_getElem?_getD,
        List.getElem?_eq_getElem h]
      rfl
    · rw [List.getElem?_set_ne hn]
  · exact List.set_eq_of_length_le h

theorem countP_range_succ (p : Nat → Bool) (n : Nat) :
    (List.range (n + 1)).countP p
      = (List.range n).countP p + (if p n then 1 else 0) := by
  rw [List.range_succ, List.countP_append]
  simp [List.countP_cons]

theorem countP_range_congr {p q : Nat → Bool} (n : Nat)
    (h : ∀ i, i < n → p i = q i) :
    (List.range n).countP p = (List.range n).countP q := by
  induction n with
  | zero => rfl
  | succ m ih =>
    rw [countP_range_succ, countP_range_succ,
      ih (fun i hi => h i (Nat.lt_succ_of_lt hi)), h m (Nat.lt_succ_self m)]

theorem countP_range_flip {p q : Nat → Bool} (n j : Nat) (hj : j < n)
    (hpj : p j = true) (hqj : q j = false)
    (hagree : ∀ i, i < n → i ≠ j → p i = q i) :
    (List.range n).countP p = (List.range n).countP q + 1 := by
  induction n with
  | zero => omega
  | succ m ih =>
    rw [countP_range_succ, countP_range_succ]
    by_cases hjm : j = m
    · have hcong : (List.range m).countP p = (List.range m).countP q := by
        apply countP_range_congr
        intro i hi
        exact hagree i (Nat.lt_succ_of_lt hi) (by omega)
      rw [hcong, ← hjm, hpj, hqj]
      simp
    · have hj' : j < m := by omega
      rw [ih hj' (fun i hi hij => hagree i (Nat.lt_succ_of_lt hi) hij),
        hagree m (Nat.lt_succ_self m) (fun hmj => hjm hmj.symm)]
      omega

theorem countP_range_le {p q : Nat → Bool} (n : Nat)
    (h : ∀ i, i < n → p i = true → q i = true) :
    (List.range n).countP p ≤ (List.range n).countP q := by
  induction n with
  | zero => exact Nat.le_refl _
  | succ m ih =>
    rw [countP_range_succ, countP_range_succ]
    have h1 := ih (fun i hi => h i (Nat.lt_succ_of_lt hi))
    have h2 := h m (Nat.lt_succ_self m)
    by_cases hp : p m = true
    · simp [hp, h2 hp]; omega
    · simp [hp]
      split <;> omega

theorem countP_range_lt {p q : Nat → Bool} (n j : Nat) (hj : j < n)
    (hpj : p j = false) (hqj : q j = true)
    (h : ∀ i, i < n → p i = true → q i = true) :
    (List.range n).countP p < (List.range n).countP q := by
  have hflip := countP_range_flip (p := q)
    (q := fun i => if i = j then false else q i) n j hj hqj (by simp)
    (fun i hi hij => by simp [hij])
  have hle := countP_range_le (p := p)
    (q := fun i => if i = j then false else q i) n (fun i hi hpi => by
      by_cases hij : i = j
      · rw [hij, hpj] at hpi
        exact absurd hpi (by simp)
      · simp only [hij, if_false]
        exact h i hi hpi)
  omega

theorem sum_map_range_flip (f g : Nat → Nat) (n j : Nat) (hj : j < n)
    (hlt : g j < f j) (hagree : ∀ i, i < n → i ≠ j → f i = g i) :
    ((List.range n).map g).sum < ((List.range n).map f).sum := by
  induction n with
  | zero => omega
  | succ m ih =>
    rw [List.range_succ, List.map_append, List.map_append,
      List.sum_append, List.sum_append]
    by_cases hjm : j = m
    · have hmap : ((List.range m).map f) = ((List.range m).map g) := by
        apply List.map_congr_left
        intro i hi
        exact hagree i (Nat.lt_succ_of_lt (List.mem_range.mp hi)) (by
          have := List.mem_range.mp hi
          omega)
      rw [hmap, ← hjm]
      simp only [List.map_cons, List.map_nil, List.sum_cons, List.sum_nil]
      omega
    · have hj' : j < m := by omega
      have h1 := ih hj' (fun i hi hij => hagree i (Nat.lt_succ_of_lt hi) hij)
      have h2 := hagree m (Nat.lt_succ_self m) (fun hmj => hjm hmj.symm)
      simp only [List.map_cons, List.map_nil, List.sum_cons, List.sum_nil]
      omega

theorem findSome?_eq_some_ex {α β : Type} {f : α → Option β} {l : List α} {b : β}
    (h : l.findSome? f = some b) : ∃ a ∈ l, f a = some b := by
  induction l with
  | nil => simp [List.findSome?_nil] at h
  | cons x xs ih =>
    rw [List.findSome?_cons] at h
    cases hx : f x with
    | some y =>
      rw [hx] at h
      simp at h
      exact ⟨x, List.mem_cons_self x xs, by rw [hx, h]⟩
    | none =>
      rw [hx] at h
      obtain ⟨a, ha, hfa⟩ := ih h
      exact ⟨a, List.mem_cons_of_mem x ha, hfa⟩

theorem findSome?_eq_none_of {α β : Type} {f : α → Option β} {l : List α}
    (h : ∀ a ∈ l, f a = none) : l.findSome? f = none := by
  induction l with
  | nil => rfl
  | cons x xs ih =>
    rw [List.findSome?_cons, h x (List.mem_cons_self x xs)]
    exact ih (fun a ha => h a (List.mem_cons_of_mem x ha))

/-! ### Cell access lemmas -/

theorem shapeB_row_len {b : Board} {size : Nat} (hb : shapeB b size)
    {r : Nat} (hr : r < size) : (b.getD r []).length = size := by
  obtain ⟨hlen, hrows⟩ := hb
  have hr' : r < b.length := by omega
  rw [List.getD_eq_getElem?_getD, List.getElem?_eq_getElem hr']
  exact hrows _ (List.getElem_mem hr')

theorem getCell_boardSet_same {b : Board} {size r c : Nat} (v : Nat)
    (hb : shapeB b size) (hr : r < size) (hc : c < size) :
    getCell (boardSet b r c v) r c = v := by
  have hlen := hb.1
  unfold getCell boardSet
  have hr' : r < b.length := by omega
  rw [getD_set_self _ _ _ _ hr']
  exact getD_set_self _ _ _ _ (by rw [shapeB_row_len hb hr]; omega)

theorem getCell_boardSet_ne (b : Board) (r c v r' c' : Nat)
    (h : r' ≠ r ∨ c' ≠ c) :
    getCell (boardSet b r c v) r' c' = getCell b r' c' := by
  unfold getCell boardSet
  rcases h with h | h
  · rw [getD_set_ne _ _ _ (fun he => h he.symm)]
  · by_cases hr : r' = r
    · subst hr
      rcases Nat.lt_or_ge r' b.length with hlt | hge
      · rw [getD_set_self _ _ _ _ hlt, getD_set_ne _ _ _ (fun he => h he.symm)]
      · rw [List.set_eq_of_length_le hge]
    · rw [getD_set_ne _ _ _ (fun he => hr he.symm)]

theorem getCell_boardSet_or (b : Board) (r c v r' c' : Nat) :
    getCell (boardSet b r c v) r' c' = getCell b r' c'
      ∨ getCell (boardSet b r c v) r' c' = v := by
  by_cases hr : r' = r
  · by_cases hc : c' = c
    · subst hr; subst hc
      unfold getCell boardSet
      rcases Nat.lt_or_ge r' b.length with hlt | hge
      · rw [getD_set_self _ _ _ _ hlt]
        rcases Nat.lt_or_ge c' (b.getD r' []).length with hclt | hcge
        · exact Or.inr (getD_set_self _ _ _ _ hclt)
        · rw [List.set_eq_of_length_le hcge]
          exact Or.inl rfl
      · rw [List.set_eq_of_length_le hge]
        exact Or.inl rfl
    · exact Or.inl (getCell_boardSet_ne b r c v r' c' (Or.inr hc))
  · exact Or.inl (getCell_boardSet_ne b r c v r' c' (Or.inl hr))

theorem shapeB_boardSet {b : Board} {size : Nat} (hb : shapeB b size)
    (r c v : Nat) : shapeB (boardSet b r c v) size := by
  obtain ⟨hlen, hrows⟩ := hb
  rcases Nat.lt_or_ge r b.length with hlt | hge
  · refine ⟨by simp [boardSet, hlen], ?_⟩
    intro row hrow
    unfold boardSet at hrow
    rcases List.mem_or_eq_of_mem_set hrow with h | h
    · exact hrows row h
    · subst h
      rw [List.length_set, List.getD_eq_getElem?_getD,
        List.getElem?_eq_getElem hlt]
      exact hrows _ (List.getElem_mem hlt)
  · unfold boardSet
    rw [List.set_eq_of_length_le hge]
    exact ⟨hlen, hrows⟩

theorem boardSet_restore {b : Board} (r c : Nat) (v : Nat) :
    boardSet (boardSet b r c v) r c (getCell b r c) = b := by
  unfold boardSet getCell
  rcases Nat.lt_or_ge r b.length with hlt | hge
  · rw [getD_set_self _ _ _ _ hlt, List.set_set, List.set_set, set_getD_self,
      set_getD_self]
  · rw [List.set_eq_of_length_le hge]
    exact List.set_eq_of_length_le hge

theorem setSym_restore (g : ConstraintGrid) (r c : Nat) :
    setSym (setSym g r c none) r c (getSym g r c) = g := by
  unfold setSym getSym
  rcases Nat.lt_or_ge r g.length with hlt | hge
  · rw [getD_set_self _ _ _ _ hlt, List.set_set, List.set_set, set_getD_self,
      set_getD_self]
  · rw [List.set_eq_of_length_le hge]
    exact List.set_eq_of_length_le hge

/-! ### Specification of findLogicalMove -/

theorem getOpposite_ne_zero (v : Nat) : getOpposite v ≠ 0 := by
  unfold getOpposite
  split <;> simp

theorem checkLine_elim {b : Board} {size r c : Nat} {dr1 dc1 dr2 dc2 : Int}
    {val : Nat} (h : checkLine b size r c dr1 dc1 dr2 dc2 = some val) :
    isValidPosI size ((r : Int) + dr1) ((c : Int) + dc1) = true
    ∧ isValidPosI size ((r : Int) + dr2) ((c : Int) + dc2) = true
    ∧ getCell b ((r : Int) + dr1).toNat ((c : Int) + dc1).toNat ≠ 0
    ∧ getCell b ((r : Int) + dr1).toNat ((c : Int) + dc1).toNat
        = getCell b ((r : Int) + dr2).toNat ((c : Int) + dc2).toNat
    ∧ val = getOpposite (getCell b ((r : Int) + dr1).toNat ((c : Int) + dc1).toNat) := by
  simp only [checkLine] at h
  split at h
  · split at h
    · rename_i hb hc
      rw [Bool.and_eq_true] at hb
      simp only [Bool.and_eq_true, bne_iff_ne, beq_iff_eq, ne_eq] at hc
      exact ⟨hb.1, hb.2, hc.1, hc.2, (Option.some.inj h).symm⟩
    · exact absurd h (by simp)
  · exact absurd h (by simp)

theorem isValidPosI_elim {size : Nat} {r c : Int} (h : isValidPosI size r c = true) :
    0 ≤ r ∧ r < size ∧ 0 ≤ c ∧ c < size := by
  simp only [isValidPosI, Bool.and_eq_true, decide_eq_true_eq] at h
  exact ⟨h.1.1.1, h.1.1.2, h.1.2, h.2⟩

theorem rule1At_cases {b : Board} {size r c : Nat} {m : Move}
    (h : rule1At b size r c = some m) :
    getCell b r c = 0 ∧ m.r = r ∧ m.c = c ∧
    (checkLine b size r c 0 (-1) 0 (-2) = some m.val
     ∨ checkLine b size r c 0 1 0 2 = some m.val
     ∨ checkLine b size r c 0 (-1) 0 1 = some m.val
     ∨ checkLine b size r c (-1) 0 (-2) 0 = some m.val
     ∨ checkLine b size r c 1 0 2 0 = some m.val
     ∨ checkLine b size r c (-1) 0 1 0 = some m.val) := by
  by_cases h0 : getCell b r c = 0
  · refine ⟨h0, ?_⟩
    simp only [rule1At] at h
    rw [if_neg (by simp [h0])] at h
    split at h
    · rename_i val1 h1
      obtain rfl := Option.some.inj h
      exact ⟨rfl, rfl, Or.inl h1⟩
    · split at h
      · rename_i val1 h1
        obtain rfl := Option.some.inj h
        exact ⟨rfl, rfl, Or.inr (Or.inl h1)⟩
      · split at h
        · rename_i val1 h1
          obtain rfl := Option.some.inj h
          exact ⟨rfl, rfl, Or.inr (Or.inr (Or.inl h1))⟩
        · split at h
          · rename_i val1 h1
            obtain rfl := Option.some.inj h
            exact ⟨rfl, rfl, Or.inr (Or.inr (Or.inr (Or.inl h1)))⟩
          · split at h
            · rename_i val1 h1
              obtain rfl := Option.some.inj h
              exact ⟨rfl, rfl, Or.inr (Or.inr (Or.inr (Or.inr (Or.inl h1))))⟩
            · split at h
              · rename_i val1 h1
                obtain rfl := Option.some.inj h
                exact ⟨rfl, rfl, Or.inr (Or.inr (Or.inr (Or.inr (Or.inr h1))))⟩
              · exact absurd h (by simp)
  · simp [rule1At, h0] at h

theorem rule2H_elim {b : Board} {size : Nat} {cs : Constraints} {m : Move}
    (h : rule2H b size cs = some m) :
    ∃ r c sym, r < size ∧ c < size - 1 ∧ getSym cs.h r c = some sym ∧
    ((getCell b r c ≠ 0 ∧ getCell b r (c + 1) = 0 ∧
        m = ⟨r, c + 1, match sym with
          | CSym.EQUAL => getCell b r c
          | CSym.CROSS => getOpposite (getCell b r c)⟩)
     ∨ (getCell b r c = 0 ∧ getCell b r (c + 1) ≠ 0 ∧
        m = ⟨r, c, match sym with
          | CSym.EQUAL => getCell b r (c + 1)
          | CSym.CROSS => getOpposite (getCell b r (c + 1))⟩)) := by
  unfold rule2H at h
  obtain ⟨r, hr, h⟩ := findSome?_eq_some_ex h
  obtain ⟨c, hc, h⟩ := findSome?_eq_some_ex h
  rw [List.mem_range] at hr hc
  split at h
  · exact absurd h (by simp)
  · rename_i sym hsym
    cases sym <;>
    · simp only [] at h
      split at h
      · rename_i hcond
        exact ⟨r, c, _, hr, hc, hsym,
          Or.inl ⟨hcond.1, hcond.2, (Option.some.inj h).symm⟩⟩
      · split at h
        · rename_i hcond
          exact ⟨r, c, _, hr, hc, hsym,
            Or.inr ⟨hcond.1, hcond.2, (Option.some.inj h).symm⟩⟩
        · exact absurd h (by simp)

theorem rule2V_elim {b : Board} {size : Nat} {cs : Constraints} {m : Move}
    (h : rule2V b size cs = some m) :
    ∃ r c sym, r < size - 1 ∧ c < size ∧ getSym cs.v r c = some sym ∧
    ((getCell b r c ≠ 0 ∧ getCell b (r + 1) c = 0 ∧
        m = ⟨r + 1, c, match sym with
          | CSym.EQUAL => getCell b r c
          | CSym.CROSS => getOpposite (getCell b r c)⟩)
     ∨ (getCell b r c = 0 ∧ getCell b (r + 1) c ≠ 0 ∧
        m = ⟨r, c, match sym with
          | CSym.EQUAL => getCell b (r + 1) c
          | CSym.CROSS => getOpposite (getCell b (r + 1) c)⟩)) := by
  unfold rule2V at h
  obtain ⟨r, hr, h⟩ := findSome?_eq_some_ex h
  obtain ⟨c, hc, h⟩ := findSome?_eq_some_ex h
  rw [List.mem_range] at hr hc
  split at h
  · exact absurd h (by simp)
  · rename_i sym hsym
    cases sym <;>
    · simp only [] at h
      split at h
      · rename_i hcond
        exact ⟨r, c, _, hr, hc, hsym,
          Or.inl ⟨hcond.1, hcond.2, (Option.some.inj h).symm⟩⟩
      · split at h
        · rename_i hcond
          exact ⟨r, c, _, hr, hc, hsym,
            Or.inr ⟨hcond.1, hcond.2, (Option.some.inj h).symm⟩⟩
        · exact absurd h (by simp)

theorem firstEmptyInRow_spec {b : Board} {size r c0 : Nat}
    (h : firstEmptyInRow b size r = some c0) :
    c0 < size ∧ getCell b r c0 = 0 := by
  unfold firstEmptyInRow at h
  have h1 := List.find?_some h
  have h2 := List.mem_of_find?_eq_some h
  exact ⟨List.mem_range.mp h2, by simpa using h1⟩

theorem firstEmptyInCol_spec {b : Board} {size c r0 : Nat}
    (h : firstEmptyInCol b size c = some r0) :
    r0 < size ∧ getCell b r0 c = 0 := by
  unfold firstEmptyInCol at h
  have h1 := List.find?_some h
  have h2 := List.mem_of_find?_eq_some h
  exact ⟨List.mem_range.mp h2, by simpa using h1⟩

theorem rule3Row_elim {b : Board} {size : Nat} {m : Move}
    (h : rule3Row b size = some m) :
    ∃ r c0, r < size ∧ firstEmptyInRow b size r = some c0 ∧
      ((2 * sunsInRow b size r = size ∧ m = ⟨r, c0, 2⟩)
       ∨ (2 * moonsInRow b size r = size ∧ m = ⟨r, c0, 1⟩)) := by
  unfold rule3Row at h
  obtain ⟨r, hr, h⟩ := findSome?_eq_some_ex h
  rw [List.mem_range] at hr
  split at h
  · exact absurd h (by simp)
  · rename_i c0 hc0
    split at h
    · rename_i hsuns
      exact ⟨r, c0, hr, hc0, Or.inl ⟨hsuns, (Option.some.inj h).symm⟩⟩
    · split at h
      · rename_i hmoons
        exact ⟨r, c0, hr, hc0, Or.inr ⟨hmoons, (Option.some.inj h).symm⟩⟩
      · exact absurd h (by simp)

theorem rule3Col_elim {b : Board} {size : Nat} {m : Move}
    (h : rule3Col b size = some m) :
    ∃ c r0, c < size ∧ firstEmptyInCol b size c = some r0 ∧
      ((2 * sunsInCol b size c = size ∧ m = ⟨r0, c, 2⟩)
       ∨ (2 * moonsInCol b size c = size ∧ m = ⟨r0, c, 1⟩)) := by
  unfold rule3Col at h
  obtain ⟨c, hc, h⟩ := findSome?_eq_some_ex h
  rw [List.mem_range] at hc
  split at h
  · exact absurd h (by simp)
  · rename_i r0 hr0
    split at h
    · rename_i hsuns
      exact ⟨c, r0, hc, hr0, Or.inl ⟨hsuns, (Option.some.inj h).symm⟩⟩
    · split at h
      · rename_i hmoons
        exact ⟨c, r0, hc, hr0, Or.inr ⟨hmoons, (Option.some.inj h).symm⟩⟩
      · exact absurd h (by simp)

theorem findLogicalMove_elim {b : Board} {size : Nat} {cs : Constraints} {m : Move}
    (h : findLogicalMove b size cs = some m) :
    rule1 b size = some m ∨ rule2H b size cs = some m ∨ rule2V b size cs = some m
    ∨ rule3Row b size = some m ∨ rule3Col b size = some m := by
  unfold findLogicalMove at h
  split at h
  · rename_i m1 h1
    exact Or.inl (by rw [h1, h])
  · split at h
    · rename_i m1 h1
      exact Or.inr (Or.inl (by rw [h1, h]))
    · split at h
      · rename_i m1 h1
        exact Or.inr (Or.inr (Or.inl (by rw [h1, h])))
      · split at h
        · rename_i m1 h1
          exact Or.inr (Or.inr (Or.inr (Or.inl (by rw [h1, h]))))
        · exact Or.inr (Or.inr (Or.inr (Or.inr h)))

theorem findLogicalMove_spec {b : Board} {size : Nat} {cs : Constraints} {m : Move}
    (h : findLogicalMove b size cs = some m) :
    m.r < size ∧ m.c < size ∧ getCell b m.r m.c = 0 ∧ m.val ≠ 0 := by
  rcases findLogicalMove_elim h with h | h | h | h | h
  · unfold rule1 at h
    obtain ⟨r, hr, h⟩ := findSome?_eq_some_ex h
    obtain ⟨c, hc, h⟩ := findSome?_eq_some_ex h
    rw [List.mem_range] at hr hc
    obtain ⟨h0, hmr, hmc, hdisj⟩ := rule1At_cases h
    refine ⟨hmr ▸ hr, hmc ▸ hc, by rw [hmr, hmc]; exact h0, ?_⟩
    rcases hdisj with h1 | h1 | h1 | h1 | h1 | h1 <;>
      exact (checkLine_elim h1).2.2.2.2 ▸ getOpposite_ne_zero _
  · obtain ⟨r, c, sym, hr, hc, hsym, hd⟩ := rule2H_elim h
    rcases hd with ⟨hv1, hv2, rfl⟩ | ⟨hv1, hv2, rfl⟩
    · refine ⟨hr, by show c + 1 < size; omega, hv2, ?_⟩
      cases sym
      · exact hv1
      · exact getOpposite_ne_zero _
    · refine ⟨hr, by show c < size; omega, hv1, ?_⟩
      cases sym
      · exact hv2
      · exact getOpposite_ne_zero _
  · obtain ⟨r, c, sym, hr, hc, hsym, hd⟩ := rule2V_elim h
    rcases hd with ⟨hv1, hv2, rfl⟩ | ⟨hv1, hv2, rfl⟩
    · refine ⟨by show r + 1 < size; omega, hc, hv2, ?_⟩
      cases sym
      · exact hv1
      · exact getOpposite_ne_zero _
    · refine ⟨by show r < size; omega, hc, hv1, ?_⟩
      cases sym
      · exact hv2
      · exact getOpposite_ne_zero _
  · obtain ⟨r, c0, hr, hc0, hd⟩ := rule3Row_elim h
    obtain ⟨hc0lt, hc0v⟩ := firstEmptyInRow_spec hc0
    rcases hd with ⟨_, rfl⟩ | ⟨_, rfl⟩
    · exact ⟨hr, hc0lt, hc0v, by simp⟩
    · exact ⟨hr, hc0lt, hc0v, by simp⟩
  · obtain ⟨c, r0, hc, hr0, hd⟩ := rule3Col_elim h
    obtain ⟨hr0lt, hr0v⟩ := firstEmptyInCol_spec hr0
    rcases hd with ⟨_, rfl⟩ | ⟨_, rfl⟩
    · exact ⟨hr0lt, hc, hr0v, by simp⟩
    · exact ⟨hr0lt, hc, hr0v, by simp⟩

/-! ### Termination of the deduction loop -/

theorem countEmpty_set_lt {b : Board} {size r c v : Nat} (hb : shapeB b size)
    (hr : r < size) (hc : c < size) (h0 : getCell b r c = 0) (hv : v ≠ 0) :
    countEmpty (boardSet b r c v) size < countEmpty b size := by
  unfold countEmpty
  apply sum_map_range_flip _ _ size r hr
  · apply countP_range_lt size c hc
    · rw [getCell_boardSet_same v hb hr hc]
      simp [hv]
    · simp [h0]
    · intro i hi hpi
      by_cases hic : i = c
      · rw [hic, getCell_boardSet_same v hb hr hc] at hpi
        simp at hpi
        exact absurd hpi hv
      · rwa [getCell_boardSet_ne b r c v r i (Or.inr hic)] at hpi
  · intro i hi hir
    apply countP_range_congr
    intro j hj
    rw [getCell_boardSet_ne b r c v i j (Or.inl hir)]

theorem countEmpty_zero_filled {b : Board} {size : Nat}
    (h : countEmpty b size = 0) {r c : Nat} (hr : r < size) (hc : c < size) :
    getCell b r c ≠ 0 := by
  unfold countEmpty at h
  rw [List.sum_eq_zero_iff] at h
  have hmem : ((List.range size).countP fun c' => getCell b r c' == 0)
      ∈ (List.range size).map fun r' =>
        (List.range size).countP fun c' => getCell b r' c' == 0 :=
    List.mem_map_of_mem _ (List.mem_range.mpr hr)
  have hcount := h _ hmem
  rw [List.countP_eq_zero] at hcount
  have := hcount c (List.mem_range.mpr hc)
  simpa using this

theorem boardFull_iff {b : Board} {size : Nat} :
    boardFull b size = true ↔ countEmpty b size = 0 := by
  unfold boardFull countEmpty
  rw [List.all_eq_true, List.sum_eq_zero_iff]
  constructor
  · intro h x hx
    obtain ⟨r, hr, rfl⟩ := List.mem_map.mp hx
    rw [List.countP_eq_zero]
    intro c hc
    have := List.all_eq_true.mp (h r hr) c hc
    simp only [bne_iff_ne, ne_eq] at this
    simp [this]
  · intro h r hr
    rw [List.all_eq_true]
    intro c hc
    have hcount := h _ (List.mem_map_of_mem _ hr)
    rw [List.countP_eq_zero] at hcount
    have := hcount c hc
    simp only [beq_iff_eq] at this
    simpa using this

theorem solveLoop_fixpoint {size : Nat} {cs : Constraints} :
    ∀ fuel b, shapeB b size → countEmpty b size ≤ fuel →
      findLogicalMove (solveLoop size cs fuel b) size cs = none := by
  intro fuel
  induction fuel with
  | zero =>
    intro b hb hle
    have h0 : countEmpty b size = 0 := by omega
    show findLogicalMove b size cs = none
    cases hm : findLogicalMove b size cs with
    | none => rfl
    | some m =>
      have hs := findLogicalMove_spec hm
      exact absurd hs.2.2.1 (countEmpty_zero_filled h0 hs.1 hs.2.1)
  | succ f ih =>
    intro b hb hle
    simp only [solveLoop]
    cases hm : findLogicalMove b size cs with
    | none => exact hm
    | some m =>
      have hs := findLogicalMove_spec hm
      apply ih
      · exact shapeB_boardSet hb m.r m.c m.val
      · have := countEmpty_set_lt hb hs.1 hs.2.1 hs.2.2.1 hs.2.2.2
        omega

theorem solveLoop_shape {size : Nat} {cs : Constraints} :
    ∀ fuel b, shapeB b size → shapeB (solveLoop size cs fuel b) size := by
  intro fuel
  induction fuel with
  | zero => intro b hb; exact hb
  | succ f ih =>
    intro b hb
    simp only [solveLoop]
    cases hm : findLogicalMove b size cs with
    | none => exact hb
    | some m => exact ih _ (shapeB_boardSet hb m.r m.c m.val)

/-! ### Claims C7, C9, C10 -/

/-- Claim C7: for every board and constraint set, solveLogically
terminates — the fuel it is given provably suffices, its result is a
fixpoint of findLogicalMove — and it returns true iff the board at the
fixpoint contains no empty cell; every move the engine finds targets a
previously empty in-range cell, writes a non-empty value, and strictly
decreases the number of empty cells when applied, so filled cells are
never overwritten. -/
theorem c7_solveLogically_termination (size : Nat) (cs : Constraints) (b : Board)
    (m : Move) (hb : shapeB b size) :
    ((solveLogically b size cs).fst = true
      ↔ countEmpty (solveLogically b size cs).snd size = 0)
    ∧ findLogicalMove (solveLogically b size cs).snd size cs = none
    ∧ (findLogicalMove b size cs = some m →
        m.r < size ∧ m.c < size ∧ getCell b m.r m.c = 0 ∧ m.val ≠ 0
        ∧ countEmpty (boardSet b m.r m.c m.val) size < countEmpty b size) := by
  refine ⟨?_, ?_, ?_⟩
  · simp only [solveLogically]
    exact boardFull_iff
  · simp only [solveLogically]
    exact solveLoop_fixpoint (countEmpty b size) b hb (Nat.le_refl _)
  · intro hm
    have hs := findLogicalMove_spec hm
    exact ⟨hs.1, hs.2.1, hs.2.2.1, hs.2.2.2,
      countEmpty_set_lt hb hs.1 hs.2.1 hs.2.2.1 hs.2.2.2⟩

/-- Witness for C7 at a concrete 4 x 4 board where the run-avoidance
rule forces a move. -/
theorem c7_witness :
    shapeB [[1,1,0,0],[0,0,0,0],[0,0,0,0],[0,0,0,0]] 4
    ∧ (((solveLogically [[1,1,0,0],[0,0,0,0],[0,0,0,0],[0,0,0,0]] 4 ⟨[], []⟩).fst = true
        ↔ countEmpty (solveLogically [[1,1,0,0],[0,0,0,0],[0,0,0,0],[0,0,0,0]] 4 ⟨[], []⟩).snd 4 = 0)
       ∧ findLogicalMove (solveLogically [[1,1,0,0],[0,0,0,0],[0,0,0,0],[0,0,0,0]] 4 ⟨[], []⟩).snd 4 ⟨[], []⟩ = none
       ∧ (findLogicalMove [[1,1,0,0],[0,0,0,0],[0,0,0,0],[0,0,0,0]] 4 ⟨[], []⟩ = some ⟨0, 2, 2⟩ →
            (0 : Nat) < 4 ∧ (2 : Nat) < 4
            ∧ getCell [[1,1,0,0],[0,0,0,0],[0,0,0,0],[0,0,0,0]] 0 2 = 0 ∧ (2 : Nat) ≠ 0
            ∧ countEmpty (boardSet [[1,1,0,0],[0,0,0,0],[0,0,0,0],[0,0,0,0]] 0 2 2) 4
                < countEmpty [[1,1,0,0],[0,0,0,0],[0,0,0,0],[0,0,0,0]] 4)) :=
  ⟨by decide, c7_solveLogically_termination 4 ⟨[], []⟩
    [[1,1,0,0],[0,0,0,0],[0,0,0,0],[0,0,0,0]] ⟨0, 2, 2⟩ (by decide)⟩

/-- Claim C9: a write into a clue cell (initialBoard non-empty there)
is rejected: setCell and cycleCell both return false and leave the
session state — board and undo history included — unchanged; the
boolean is the only failure signal (both embedded functions are total,
mirroring the exception-free source). -/
theorem c9_clue_cell_rejection (g : Game) (r c v : Nat)
    (hclue : getCell g.initialBoard r c ≠ 0) :
    Game.setCell g r c v = (false, g) ∧ Game.cycleCell g r c = (false, g) := by
  unfold Game.setCell Game.cycleCell
  rw [if_pos hclue, if_pos hclue]
  exact ⟨rfl, rfl⟩

/-- Witness for C9 on a concrete 2 x 2 session with a clue at (0,0). -/
theorem c9_witness :
    getCell [[1,0],[0,0]] 0 0 ≠ 0
    ∧ Game.setCell ⟨2, [[1,0],[0,0]], [[1,0],[0,0]], [[1,2],[2,1]], ⟨[], []⟩, []⟩ 0 0 2
        = (false, ⟨2, [[1,0],[0,0]], [[1,0],[0,0]], [[1,2],[2,1]], ⟨[], []⟩, []⟩)
    ∧ Game.cycleCell ⟨2, [[1,0],[0,0]], [[1,0],[0,0]], [[1,2],[2,1]], ⟨[], []⟩, []⟩ 0 0
        = (false, ⟨2, [[1,0],[0,0]], [[1,0],[0,0]], [[1,2],[2,1]], ⟨[], []⟩, []⟩) :=
  ⟨by decide,
    c9_clue_cell_rejection ⟨2, [[1,0],[0,0]], [[1,0],[0,0]], [[1,2],[2,1]], ⟨[], []⟩, []⟩
      0 0 2 (by decide)⟩

theorem cycleCell_free {g : Game} {r c : Nat}
    (hfree : getCell g.initialBoard r c = 0) :
    Game.cycleCell g r c = (true,
      { g with
        history := g.history ++ [g.board]
        board := boardSet g.board r c ((getCell g.board r c + 1) % 3) }) := by
  unfold Game.cycleCell Game.setCell
  rw [if_neg (by simp [hfree]), if_neg (by simp [hfree])]

/-- Claim C10: on a non-clue in-range cell whose current value is one
of Empty, A, B, three successive cycleCell calls all return true and
restore the cell to the value it held before the first call. -/
theorem c10_cycle_three_roundtrip (g : Game) (r c : Nat)
    (hb : shapeB g.board g.size) (hr : r < g.size) (hc : c < g.size)
    (hfree : getCell g.initialBoard r c = 0) (hv : getCell g.board r c < 3) :
    (Game.cycleCell g r c).fst = true
    ∧ (Game.cycleCell (Game.cycleCell g r c).snd r c).fst = true
    ∧ (Game.cycleCell (Game.cycleCell (Game.cycleCell g r c).snd r c).snd r c).fst = true
    ∧ getCell (Game.cycleCell (Game.cycleCell (Game.cycleCell g r c).snd r c).snd r c).snd.board r c
        = getCell g.board r c := by
  have h1 := cycleCell_free (g := g) hfree
  rw [h1]
  have hg1b : getCell (boardSet g.board r c ((getCell g.board r c + 1) % 3)) r c
      = (getCell g.board r c + 1) % 3 := getCell_boardSet_same _ hb hr hc
  have hb1 : shapeB (boardSet g.board r c ((getCell g.board r c + 1) % 3)) g.size :=
    shapeB_boardSet hb r c _
  have h2 := cycleCell_free
    (g := { g with
      history := g.history ++ [g.board]
      board := boardSet g.board r c ((getCell g.board r c + 1) % 3) }) hfree
  rw [h2]
  simp only [hg1b]
  have hg2b : getCell (boardSet (boardSet g.board r c ((getCell g.board r c + 1) % 3)) r c
      (((getCell g.board r c + 1) % 3 + 1) % 3)) r c
      = ((getCell g.board r c + 1) % 3 + 1) % 3 := getCell_boardSet_same _ hb1 hr hc
  have hb2 : shapeB (boardSet (boardSet g.board r c ((getCell g.board r c + 1) % 3)) r c
      (((getCell g.board r c + 1) % 3 + 1) % 3)) g.size :=
    shapeB_boardSet hb1 r c _
  have h3 := cycleCell_free
    (g := { g with
      history := (g.history ++ [g.board]) ++ [boardSet g.board r c ((getCell g.board r c + 1) % 3)]
      board := boardSet (boardSet g.board r c ((getCell g.board r c + 1) % 3)) r c
        (((getCell g.board r c + 1) % 3 + 1) % 3) }) hfree
  rw [h3]
  simp only [hg2b]
  refine ⟨by trivial, by trivial, by trivial, ?_⟩
  rw [getCell_boardSet_same _ hb2 hr hc]
  omega

/-- Witness for C10 on a concrete 2 x 2 session, cycling the empty
non-clue cell (0,1). -/
theorem c10_witness :
    shapeB [[1,0],[0,0]] 2 ∧ (0 : Nat) < 2 ∧ (1 : Nat) < 2
    ∧ getCell [[1,0],[0,0]] 0 1 = 0 ∧ getCell [[1,0],[0,0]] 0 1 < 3
    ∧ ((Game.cycleCell ⟨2, [[1,0],[0,0]], [[1,0],[0,0]], [[1,2],[2,1]], ⟨[], []⟩, []⟩ 0 1).fst = true
       ∧ (Game.cycleCell (Game.cycleCell ⟨2, [[1,0],[0,0]], [[1,0],[0,0]], [[1,2],[2,1]], ⟨[], []⟩, []⟩ 0 1).snd 0 1).fst = true
       ∧ (Game.cycleCell (Game.cycleCell (Game.cycleCell ⟨2, [[1,0],[0,0]], [[1,0],[0,0]], [[1,2],[2,1]], ⟨[], []⟩, []⟩ 0 1).snd 0 1).snd 0 1).fst = true
       ∧ getCell (Game.cycleCell (Game.cycleCell (Game.cycleCell ⟨2, [[1,0],[0,0]], [[1,0],[0,0]], [[1,2],[2,1]], ⟨[], []⟩, []⟩ 0 1).snd 0 1).snd 0 1).snd.board 0 1
           = getCell [[1,0],[0,0]] 0 1) :=
  ⟨by decide, by decide, by decide, by decide, by decide,
    c10_cycle_three_roundtrip ⟨2, [[1,0],[0,0]], [[1,0],[0,0]], [[1,2],[2,1]], ⟨[], []⟩, []⟩
      0 1 (by decide) (by decide) (by decide) (by decide) (by decide)⟩

/-! ### Claim C8: hint scan equivalence -/


theorem map_findSome? {α β γ : Type} (f : β → γ) (g : α → Option β) (l : List α) :
    Option.map f (l.findSome? g) = l.findSome? fun a => Option.map f (g a) := by
  induction l with
  | nil => rfl
  | cons x xs ih =>
    rw [List.findSome?_cons, List.findSome?_cons]
    cases g x <;> simp [ih]

theorem checkLine_gchk (g : Game) (r c : Nat) (d1 d2 d3 d4 : Int) :
    checkLine g.board g.size r c d1 d2 d3 d4
      = if Game.checkLine g r c d1 d2 d3 d4 = true
        then some (getOpposite (getCell g.board ((r : Int) + d1).toNat ((c : Int) + d2).toNat))
        else none := by
  simp only [checkLine, Game.checkLine]
  split
  · rfl
  · rfl

theorem rule1At_game_eq (g : Game) (r c : Nat) :
    Option.map dropReason (Game.rule1At g r c) = rule1At g.board g.size r c := by
  unfold Game.rule1At rule1At
  by_cases h0 : getCell g.board r c ≠ 0
  · rw [if_pos h0, if_pos h0]
    rfl
  · rw [if_neg h0, if_neg h0]
    have em1c : (((c : Int)) + (-1)).toNat = c - 1 := by omega
    have ep1c : (((c : Int)) + 1).toNat = c + 1 := by omega
    have em1r : (((r : Int)) + (-1)).toNat = r - 1 := by omega
    have ep1r : (((r : Int)) + 1).toNat = r + 1 := by omega
    have e0c : (((c : Int)) + 0).toNat = c := by omega
    have e0r : (((r : Int)) + 0).toNat = r := by omega
    rw [checkLine_gchk, checkLine_gchk, checkLine_gchk, checkLine_gchk,
      checkLine_gchk, checkLine_gchk]
    simp only [em1c, ep1c, em1r, ep1r, e0c, e0r]
    by_cases h1 : Game.checkLine g r c 0 (-1) 0 (-2) = true
    · simp [h1, dropReason]
    · simp only [h1, if_false, Bool.false_eq_true]
      by_cases h2 : Game.checkLine g r c 0 1 0 2 = true
      · simp [h2, dropReason]
      · simp only [h2, if_false, Bool.false_eq_true]
        by_cases h3 : Game.checkLine g r c 0 (-1) 0 1 = true
        · simp [h3, dropReason]
        · simp only [h3, if_false, Bool.false_eq_true]
          by_cases h4 : Game.checkLine g r c (-1) 0 (-2) 0 = true
          · simp [h4, dropReason]
          · simp only [h4, if_false, Bool.false_eq_true]
            by_cases h5 : Game.checkLine g r c 1 0 2 0 = true
            · simp [h5, dropReason]
            · simp only [h5, if_false, Bool.false_eq_true]
              by_cases h6 : Game.checkLine g r c (-1) 0 1 0 = true
              · simp [h6, dropReason]
              · simp [h6, dropReason]

theorem rule1_game_eq (g : Game) :
    Option.map dropReason (Game.rule1 g) = rule1 g.board g.size := by
  unfold Game.rule1 rule1
  rw [map_findSome?]
  congr 1
  funext r
  rw [map_findSome?]
  congr 1
  funext c
  exact rule1At_game_eq g r c

theorem rule2H_game_eq (g : Game) :
    Option.map dropReason (Game.rule2H g) = rule2H g.board g.size g.constraints := by
  unfold Game.rule2H rule2H
  rw [map_findSome?]
  congr 1
  funext r
  rw [map_findSome?]
  congr 1
  funext c
  cases getSym g.constraints.h r c with
  | none => rfl
  | some sym =>
    cases sym <;>
    · simp only []
      split
      · rfl
      · split
        · rfl
        · rfl

theorem rule2V_game_eq (g : Game) :
    Option.map dropReason (Game.rule2V g) = rule2V g.board g.size g.constraints := by
  unfold Game.rule2V rule2V
  rw [map_findSome?]
  congr 1
  funext r
  rw [map_findSome?]
  congr 1
  funext c
  cases getSym g.constraints.v r c with
  | none => rfl
  | some sym =>
    cases sym <;>
    · simp only []
      split
      · rfl
      · split
        · rfl
        · rfl

theorem rule3Row_game_eq (g : Game) :
    Option.map dropReason (Game.rule3Row g) = rule3Row g.board g.size := by
  unfold Game.rule3Row rule3Row
  rw [map_findSome?]
  congr 1
  funext r
  cases firstEmptyInRow g.board g.size r with
  | none => rfl
  | some c0 =>
    simp only []
    split
    · rfl
    · split
      · rfl
      · rfl

theorem rule3Col_game_eq (g : Game) :
    Option.map dropReason (Game.rule3Col g) = rule3Col g.board g.size := by
  unfold Game.rule3Col rule3Col
  rw [map_findSome?]
  congr 1
  funext c
  cases firstEmptyInCol g.board g.size c with
  | none => rfl
  | some r0 =>
    simp only []
    split
    · rfl
    · split
      · rfl
      · rfl

/-- Claim C8: the session's hint rule scan and the generator's
deduction scan are behaviorally equivalent — stripped of its rule
description, the session's found move is exactly the generator
engine's found move (including the case where both find none) — and
getHint applies a found logical move to the actual session board by
calling setCell with it. -/
theorem c8_hint_scan_equivalence (g : Game) (m : MoveR) (q : Frac) :
    Option.map dropReason (Game.findLogicalMove g)
      = findLogicalMove g.board g.size g.constraints
    ∧ (Game.findLogicalMove g = some m →
        Game.getHint g q = (some m, (Game.setCell g m.r m.c m.val).snd)) := by
  constructor
  · unfold findLogicalMove Game.findLogicalMove
    rw [← rule1_game_eq, ← rule2H_game_eq, ← rule2V_game_eq,
      ← rule3Row_game_eq, ← rule3Col_game_eq]
    cases Game.rule1 g <;> cases Game.rule2H g <;> cases Game.rule2V g <;>
      cases Game.rule3Row g <;> cases Game.rule3Col g <;> rfl
  · intro hm
    unfold Game.getHint
    rw [hm]

/-! ### Seeded determinism (claims C2, C4) -/

theorem shuffleGo_ent_irrel {α : Type} (ent1 ent2 : Nat → Frac) (d : α) :
    ∀ i a s hs0, shuffleGo ent1 d i a (Rng.seeded s hs0)
      = shuffleGo ent2 d i a (Rng.seeded s hs0) := by
  intro i
  induction i with
  | zero => intro a s hs0; rfl
  | succ n ih =>
    intro a s hs0
    simp only [shuffleGo, randomDraw]
    exact ih _ s _

theorem shuffle_ent_irrel {α : Type} (ent1 ent2 : Nat → Frac) (d : α)
    (a : List α) (s : List Nat) (hs0 : Nat) :
    shuffle ent1 d a (Rng.seeded s hs0) = shuffle ent2 d a (Rng.seeded s hs0) :=
  shuffleGo_ent_irrel ent1 ent2 d _ a s hs0

theorem shuffleGo_snd_seeded {α : Type} (ent : Nat → Frac) (d : α) :
    ∀ i a s hs0, ∃ h2, (shuffleGo ent d i a (Rng.seeded s hs0)).snd = Rng.seeded s h2 := by
  intro i
  induction i with
  | zero => intro a s hs0; exact ⟨hs0, rfl⟩
  | succ n ih =>
    intro a s hs0
    simp only [shuffleGo, randomDraw]
    exact ih _ s _

theorem shuffle_snd_seeded {α : Type} (ent : Nat → Frac) (d : α) (a : List α)
    (s : List Nat) (hs0 : Nat) :
    ∃ h2, (shuffle ent d a (Rng.seeded s hs0)).snd = Rng.seeded s h2 :=
  shuffleGo_snd_seeded ent d _ a s hs0

theorem shuffleGo_snd_unseeded {α : Type} (ent : Nat → Frac) (d : α) :
    ∀ i a k, ∃ k2, (shuffleGo ent d i a (Rng.unseeded k)).snd = Rng.unseeded k2 := by
  intro i
  induction i with
  | zero => intro a k; exact ⟨k, rfl⟩
  | succ n ih =>
    intro a k
    simp only [shuffleGo, randomDraw]
    exact ih _ _

theorem shuffle_snd_unseeded {α : Type} (ent : Nat → Frac) (d : α) (a : List α)
    (k : Nat) :
    ∃ k2, (shuffle ent d a (Rng.unseeded k)).snd = Rng.unseeded k2 :=
  shuffleGo_snd_unseeded ent d _ a k

theorem initialRng_nonempty {s : List Nat} (hs : s ≠ []) :
    initialRng (some s) = Rng.seeded s (hashSeedInit s) := by
  show (if s.length = 0 then Rng.unseeded 0 else Rng.seeded s (hashSeedInit s))
    = Rng.seeded s (hashSeedInit s)
  rw [if_neg (by simpa using hs)]

/-- generate with a non-empty seed ignores the ambient entropy stream:
its output is a function of (size, seed, difficulty) alone. -/
theorem generate_seeded_ent_irrel (size : Nat) (s : List Nat)
    (difficulty : Difficulty) (ent1 ent2 : Nat → Frac) (hs : s ≠ []) :
    generate size (some s) difficulty ent1 = generate size (some s) difficulty ent2 := by
  unfold generate
  cases hfb : fillBoard size (size * size) (createEmptyBoard size) 0 0 with
  | none => rfl
  | some sol =>
    simp only [initialRng_nonempty hs]
    rw [shuffle_ent_irrel ent1 ent2 (ConsItem.hSlot 0 0) (consItems size) s (hashSeedInit s)]
    rcases hsh1 : shuffle ent2 (ConsItem.hSlot 0 0) (consItems size)
      (Rng.seeded s (hashSeedInit s)) with ⟨items, rng1⟩
    obtain ⟨h2, hr1⟩ := shuffle_snd_seeded ent2 (ConsItem.hSlot 0 0) (consItems size) s (hashSeedInit s)
    rw [hsh1] at hr1
    simp only [] at hr1
    rw [hr1]
    rw [shuffle_ent_irrel ent1 ent2 ((0 : Nat), (0 : Nat)) (cellItems size) s h2]

/-- Characterization of a successful generate call in terms of its
pipeline stages. -/
theorem generate_elim {size : Nat} {seed : Option (List Nat)} {difficulty : Difficulty}
    {ent : Nat → Frac} {lvl : GeneratedLevel}
    (h : generate size seed difficulty ent = some lvl) :
    ∃ sol items rng1 cells rng2 cs1 curC puz2 curCell,
      fillBoard size (size * size) (createEmptyBoard size) 0 0 = some sol
      ∧ shuffle ent (ConsItem.hSlot 0 0) (consItems size) (initialRng seed) = (items, rng1)
      ∧ shuffle ent ((0 : Nat), (0 : Nat)) (cellItems size) rng1 = (cells, rng2)
      ∧ phase1 size sol
          (ceilMulNat (size * (size - 1) + (size - 1) * size)
            (difficultySettings difficulty).1)
          items ⟨deriveH sol size, deriveV sol size⟩
          (size * (size - 1) + (size - 1) * size) = (cs1, curC)
      ∧ phase2 size cs1 (ceilMulNat (size * size) (difficultySettings difficulty).2)
          cells sol (size * size) = (puz2, curCell)
      ∧ hasDupRows sol size = false
      ∧ lvl = ⟨sol, puz2, cs1, rngSeedField rng2⟩ := by
  unfold generate at h
  cases hfb : fillBoard size (size * size) (createEmptyBoard size) 0 0 with
  | none =>
    rw [hfb] at h
    exact absurd h (by simp)
  | some sol =>
    rw [hfb] at h
    simp only [] at h
    rcases hsh1 : shuffle ent (ConsItem.hSlot 0 0) (consItems size) (initialRng seed)
      with ⟨items, rng1⟩
    rw [hsh1] at h
    simp only [] at h
    rcases hsh2 : shuffle ent ((0 : Nat), (0 : Nat)) (cellItems size) rng1
      with ⟨cells, rng2⟩
    rw [hsh2] at h
    simp only [] at h
    rcases hp1 : phase1 size sol
        (ceilMulNat (size * (size - 1) + (size - 1) * size)
          (difficultySettings difficulty).1)
        items ⟨deriveH sol size, deriveV sol size⟩
        (size * (size - 1) + (size - 1) * size) with ⟨cs1, curC⟩
    rw [hp1] at h
    simp only [] at h
    rcases hp2 : phase2 size cs1
        (ceilMulNat (size * size) (difficultySettings difficulty).2)
        cells sol (size * size) with ⟨puz2, curCell⟩
    rw [hp2] at h
    simp only [] at h
    by_cases hdup : hasDupRows sol size = true
    · rw [if_pos hdup] at h
      exact absurd h (by simp)
    · rw [if_neg hdup] at h
      exact ⟨sol, items, rng1, cells, rng2, cs1, curC, puz2, curCell, rfl, rfl,
        hsh2, hp1, hp2, by simpa using hdup, (Option.some.inj h).symm⟩


/-- Claim C2, amended to non-empty seed strings: two generate calls
with the same size, the same non-empty seed string, and the same
difficulty return identical levels (solution, initialBoard,
constraints and seed all equal) — the output is independent of the
ambient Math.random stream, which models run-to-run state. -/
theorem c2_seeded_determinism (size : Nat) (s : List Nat) (difficulty : Difficulty)
    (ent1 ent2 : Nat → Frac) (hs : s ≠ []) :
    generate size (some s) difficulty ent1 = generate size (some s) difficulty ent2 :=
  generate_seeded_ent_irrel size s difficulty ent1 ent2 hs

/-- Counterexample to C2 as stated: the empty string is a non-null
seed string, but `if (seed)` is false for it, so generation falls back
to Math.random; two runs with different ambient streams produce
different levels at size 4, difficulty medium. -/
theorem c2_counterexample :
    generate 4 (some []) Difficulty.medium demoEnt
      ≠ generate 4 (some []) Difficulty.medium demoEnt2 := by decide

/-- Witness for the amended C2 at the concrete seed "A". -/
theorem c2_witness :
    ([65] : List Nat) ≠ []
    ∧ generate 4 (some [65]) Difficulty.medium demoEnt
        = generate 4 (some [65]) Difficulty.medium demoEnt2 :=
  ⟨by decide, c2_seeded_determinism 4 [65] Difficulty.medium demoEnt demoEnt2 (by decide)⟩

/-- Claim C4, amended: a successful generate call with the seed
omitted returns a level whose seed field is null (the fresh seed
string is produced by the caller, Game.startNewGame, not by generate);
for any non-empty seed s, generate echoes s in the returned level's
seed field, and calling generate again with s and the same size and
difficulty reproduces the identical level. -/
theorem c4_seed_roundtrip (size : Nat) (s : List Nat) (difficulty : Difficulty)
    (ent1 ent2 : Nat → Frac) (lvl lvl2 : GeneratedLevel) (hs : s ≠ [])
    (h : generate size (some s) difficulty ent1 = some lvl)
    (h2 : generate size none difficulty ent1 = some lvl2) :
    lvl.seed = some s
    ∧ generate size (some s) difficulty ent2 = some lvl
    ∧ lvl2.seed = none := by
  refine ⟨?_, ?_, ?_⟩
  · obtain ⟨sol, items, rng1, cells, rng2, cs1, curC, puz2, curCell, hfb, hsh1,
      hsh2, hp1, hp2, hdup, hlvl⟩ := generate_elim h
    rw [initialRng_nonempty hs] at hsh1
    obtain ⟨hA, hra⟩ := shuffle_snd_seeded ent1 (ConsItem.hSlot 0 0) (consItems size)
      s (hashSeedInit s)
    rw [hsh1] at hra
    simp only [] at hra
    subst hra
    obtain ⟨hB, hrb⟩ := shuffle_snd_seeded ent1 ((0 : Nat), (0 : Nat)) (cellItems size) s hA
    rw [hsh2] at hrb
    simp only [] at hrb
    subst hrb
    rw [hlvl]
    rfl
  · exact (generate_seeded_ent_irrel size s difficulty ent2 ent1 hs).trans h
  · obtain ⟨sol, items, rng1, cells, rng2, cs1, curC, puz2, curCell, hfb, hsh1,
      hsh2, hp1, hp2, hdup, hlvl⟩ := generate_elim h2
    have hinit : initialRng none = Rng.unseeded 0 := rfl
    rw [hinit] at hsh1
    obtain ⟨k1, hra⟩ := shuffle_snd_unseeded ent1 (ConsItem.hSlot 0 0) (consItems size) 0
    rw [hsh1] at hra
    simp only [] at hra
    subst hra
    obtain ⟨k2, hrb⟩ := shuffle_snd_unseeded ent1 ((0 : Nat), (0 : Nat)) (cellItems size) k1
    rw [hsh2] at hrb
    simp only [] at hrb
    subst hrb
    rw [hlvl]
    rfl

/-- Counterexample to C4 as stated: generate succeeds at size 4 with
the seed omitted, yet the returned seed field is null, not a fresh
seed string. -/
theorem c4_counterexample :
    (generate 4 none Difficulty.medium demoEnt).map (fun lvl => lvl.seed)
      = some none := by decide

/-- Witness for the amended C4 at seed "A" and two concrete runs. -/
theorem c4_witness :
    ([65] : List Nat) ≠ []
    ∧ generate 4 (some [65]) Difficulty.medium demoEnt = some demoLevelSeeded
    ∧ generate 4 none Difficulty.medium demoEnt = some demoLevelUnseeded
    ∧ (demoLevelSeeded.seed = some [65]
       ∧ generate 4 (some [65]) Difficulty.medium demoEnt2 = some demoLevelSeeded
       ∧ demoLevelUnseeded.seed = none) :=
  ⟨by decide, by decide, by decide,
    c4_seed_roundtrip 4 [65] Difficulty.medium demoEnt demoEnt2 demoLevelSeeded
      demoLevelUnseeded (by decide) (by decide) (by decide)⟩

/-! ### Invariants of the backtracking filler (claim C1) -/

theorem cell_index_inj {size r c r2 c2 : Nat} (hc : c < size) (hc2 : c2 < size)
    (h : r * size + c = r2 * size + c2) : r = r2 ∧ c = c2 := by
  have hr : r = r2 := by
    rcases Nat.lt_trichotomy r r2 with hlt | heq | hgt
    · have h1 : (r + 1) * size ≤ r2 * size := Nat.mul_le_mul_right size hlt
      rw [Nat.succ_mul] at h1
      omega
    · exact heq
    · have h1 : (r2 + 1) * size ≤ r * size := Nat.mul_le_mul_right size hgt
      rw [Nat.succ_mul] at h1
      omega
  subst hr
  omega

theorem cell_index_lt {size r c : Nat} (hr : r < size) (hc : c < size) :
    r * size + c < size * size := by
  have h1 : (r + 1) * size ≤ size * size := Nat.mul_le_mul_right size hr
  rw [Nat.succ_mul] at h1
  omega

theorem countP_range_high_false {p : Nat → Bool} {k n : Nat} (hk : k ≤ n)
    (h : ∀ i, k ≤ i → i < n → p i = false) :
    (List.range n).countP p = (List.range k).countP p := by
  induction n with
  | zero =>
    have : k = 0 := by omega
    subst this
    rfl
  | succ m ih =>
    by_cases hkm : k = m + 1
    · subst hkm
      rfl
    · have hk' : k ≤ m := by omega
      rw [countP_range_succ, h m hk' (Nat.lt_succ_self m),
        ih hk' (fun i hi him => h i hi (Nat.lt_succ_of_lt him))]
      simp

theorem counts_add {n : Nat} {f : Nat → Nat} (h : ∀ i, i < n → f i = 1 ∨ f i = 2) :
    (List.range n).countP (fun i => f i == 1)
      + (List.range n).countP (fun i => f i == 2) = n := by
  induction n with
  | zero => rfl
  | succ m ih =>
    rw [countP_range_succ, countP_range_succ]
    have hm := h m (Nat.lt_succ_self m)
    have := ih (fun i hi => h i (Nat.lt_succ_of_lt hi))
    rcases hm with hm | hm <;> rw [hm] <;> simp <;> omega

theorem getCell_createEmptyBoard (size r c : Nat) :
    getCell (createEmptyBoard size) r c = 0 := by
  unfold getCell createEmptyBoard
  rcases Nat.lt_or_ge r size with hr | hr
  · have houter : (List.replicate size (List.replicate size 0)).getD r []
        = List.replicate size 0 := by
      rw [List.getD_eq_getElem?_getD, List.getElem?_replicate, if_pos hr]
      rfl
    rw [houter]
    rcases Nat.lt_or_ge c size with hc | hc
    · rw [List.getD_eq_getElem?_getD, List.getElem?_replicate, if_pos hc]
      rfl
    · rw [List.getD_eq_getElem?_getD, List.getElem?_replicate, if_neg (by omega)]
      rfl
  · have houter : (List.replicate size (List.replicate size 0)).getD r [] = [] := by
      rw [List.getD_eq_getElem?_getD, List.getElem?_replicate, if_neg (by omega)]
      rfl
    rw [houter]
    rfl

theorem shapeB_createEmptyBoard (size : Nat) : shapeB (createEmptyBoard size) size := by
  refine ⟨by simp [createEmptyBoard], ?_⟩
  intro row hrow
  rw [List.eq_of_mem_replicate hrow]
  simp

theorem nextPos_eq {size row col : Nat} (hcol : col < size) :
    (if col = size - 1 then row + 1 else row) * size
      + (if col = size - 1 then 0 else col + 1) = row * size + col + 1 := by
  by_cases h : col = size - 1
  · rw [if_pos h, if_pos h, Nat.succ_mul]
    omega
  · rw [if_neg h, if_neg h]
    omega

theorem isValidPlacement_elim {b : Board} {row col size piece : Nat}
    (h : isValidPlacement b row col size piece = true) :
    ¬(2 ≤ col ∧ getCell b row (col - 1) = piece ∧ getCell b row (col - 2) = piece)
    ∧ ¬(2 ≤ row ∧ getCell b (row - 1) col = piece ∧ getCell b (row - 2) col = piece)
    ∧ 2 * ((List.range col).countP fun c => getCell b row c == piece) < size
    ∧ 2 * ((List.range row).countP fun r => getCell b r col == piece) < size
    ∧ (col = size - 1 → ∀ r2, r2 < row →
        ∃ c2, c2 < size ∧ getCell b r2 c2 ≠ (if c2 = col then piece else getCell b row c2)) := by
  unfold isValidPlacement at h
  by_cases hA : (decide (2 ≤ col) && getCell b row (col - 1) == piece
      && getCell b row (col - 2) == piece) = true
  · rw [if_pos hA] at h
    exact absurd h (by simp)
  · rw [if_neg hA] at h
    by_cases hB : (decide (2 ≤ row) && getCell b (row - 1) col == piece
        && getCell b (row - 2) col == piece) = true
    · rw [if_pos hB] at h
      exact absurd h (by simp)
    · rw [if_neg hB] at h
      simp only [] at h
      by_cases hC : size ≤ 2 * ((List.range col).countP fun c => getCell b row c == piece)
      · rw [if_pos hC] at h
        exact absurd h (by simp)
      · rw [if_neg hC] at h
        by_cases hD : size ≤ 2 * ((List.range row).countP fun r => getCell b r col == piece)
        · rw [if_pos hD] at h
          exact absurd h (by simp)
        · rw [if_neg hD] at h
          refine ⟨?_, ?_, by omega, by omega, ?_⟩
          · intro hcon
            apply hA
            simp only [Bool.and_eq_true, decide_eq_true_eq, beq_iff_eq]
            exact ⟨⟨hcon.1, hcon.2.1⟩, hcon.2.2⟩
          · intro hcon
            apply hB
            simp only [Bool.and_eq_true, decide_eq_true_eq, beq_iff_eq]
            exact ⟨⟨hcon.1, hcon.2.1⟩, hcon.2.2⟩
          · intro hlast r2 hr2
            rw [if_pos hlast] at h
            simp only [Bool.not_eq_true'] at h
            rw [List.any_eq_false] at h
            have h5 := h r2 (List.mem_range.mpr hr2)
            rw [List.all_eq_true] at h5
            push_neg at h5
            obtain ⟨c2, hc2mem, hc2⟩ := h5
            exact ⟨c2, List.mem_range.mp hc2mem, by simpa using hc2⟩


theorem ne_of_index_lt {size r c row col : Nat}
    (h : r * size + c < row * size + col) (h2 : c < size) (h3 : col < size) :
    r ≠ row ∨ c ≠ col := by
  by_cases h1 : r = row
  · subst h1
    exact Or.inr (by omega)
  · exact Or.inl h1

theorem fillInv_step {size row col piece : Nat} {b : Board} (hsize : size % 2 = 0)
    (hrow : row < size) (hcol : col < size) (hpiece : piece = 1 ∨ piece = 2)
    (hinv : fillInv b size (row * size + col))
    (hv : isValidPlacement b row col size piece = true) :
    fillInv (boardSet b row col piece) size (row * size + col + 1) := by
  obtain ⟨hshape, hpre, hsuf, hnr, hnc, hbr, hbc⟩ := hinv
  obtain ⟨hA, hB, hC, hD, _⟩ := isValidPlacement_elim hv
  have hcur : getCell b row col = 0 := hsuf row col hrow hcol (Nat.le_refl _)
  have hset : getCell (boardSet b row col piece) row col = piece :=
    getCell_boardSet_same piece hshape hrow hcol
  have hother : ∀ r c, r ≠ row ∨ c ≠ col →
      getCell (boardSet b row col piece) r c = getCell b r c :=
    fun r c hne => getCell_boardSet_ne b row col piece r c hne
  have hrow0 : ∀ c2, col ≤ c2 → c2 < size → getCell b row c2 = 0 :=
    fun c2 h1 h2 => hsuf row c2 hrow h2 (by omega)
  have hcol0 : ∀ r2, row ≤ r2 → r2 < size → getCell b r2 col = 0 := by
    intro r2 h1 h2
    have h3 : row * size ≤ r2 * size := Nat.mul_le_mul_right size h1
    exact hsuf r2 col h2 hcol (by omega)
  refine ⟨shapeB_boardSet hshape row col piece, ?_, ?_, ?_, ?_, ?_, ?_⟩
  · intro r c hr hc hlt
    by_cases heq : r = row ∧ c = col
    · rw [heq.1, heq.2, hset]
      exact hpiece
    · have hne : r ≠ row ∨ c ≠ col := by tauto
      rw [hother r c hne]
      apply hpre r c hr hc
      rcases Nat.lt_or_ge (r * size + c) (row * size + col) with h | h
      · exact h
      · have hidx : r * size + c = row * size + col := by omega
        obtain ⟨h1, h2⟩ := cell_index_inj hc hcol hidx
        exact absurd ⟨h1, h2⟩ heq
  · intro r c hr hc hge
    have hne : r ≠ row ∨ c ≠ col := by
      by_cases h1 : r = row
      · subst h1
        exact Or.inr (by omega)
      · exact Or.inl h1
    rw [hother r c hne]
    exact hsuf r c hr hc (by omega)
  · intro r c hr hc2 hlt
    rcases Nat.lt_or_ge (r * size + (c + 2)) (row * size + col) with hcase | hcase
    · have e1 := hother r c (ne_of_index_lt (by omega) (by omega) hcol)
      have e2 := hother r (c + 1) (ne_of_index_lt (by omega) (by omega) hcol)
      have e3 := hother r (c + 2) (ne_of_index_lt (by omega) (by omega) hcol)
      rw [e1, e2, e3]
      exact hnr r c hr hc2 hcase
    · have hidx : r * size + (c + 2) = row * size + col := by omega
      obtain ⟨rfl, hc2col⟩ := cell_index_inj (by omega) hcol hidx
      subst hc2col
      have e1 := hother r c (Or.inr (by omega))
      have e2 := hother r (c + 1) (Or.inr (by omega))
      rintro ⟨t1, t2⟩
      rw [e1, e2] at t1
      rw [e2, hset] at t2
      apply hA
      refine ⟨by omega, ?_, ?_⟩
      · have e : c + 2 - 1 = c + 1 := by omega
        rw [e]
        exact t2
      · have e : c + 2 - 2 = c := by omega
        rw [e]
        rw [t1]
        exact t2
  · intro r c hr2 hc hlt
    rcases Nat.lt_or_ge ((r + 2) * size + c) (row * size + col) with hcase | hcase
    · have hlt1 : r * size + c < row * size + col := by
        have h3 : r * size ≤ (r + 2) * size := Nat.mul_le_mul_right size (by omega)
        omega
      have hlt2 : (r + 1) * size + c < row * size + col := by
        have h3 : (r + 1) * size ≤ (r + 2) * size := Nat.mul_le_mul_right size (by omega)
        omega
      have e1 := hother r c (ne_of_index_lt hlt1 hc hcol)
      have e2 := hother (r + 1) c (ne_of_index_lt hlt2 hc hcol)
      have e3 := hother (r + 2) c (ne_of_index_lt hcase hc hcol)
      rw [e1, e2, e3]
      exact hnc r c hr2 hc hcase
    · have hidx : (r + 2) * size + c = row * size + col := by omega
      obtain ⟨hre, hce⟩ := cell_index_inj hc hcol hidx
      subst hce
      have e1 : getCell (boardSet b row c piece) r c = getCell b r c := by
        apply hother
        left
        omega
      have e2 : getCell (boardSet b row c piece) (r + 1) c = getCell b (r + 1) c := by
        apply hother
        left
        omega
      rintro ⟨t1, t2⟩
      rw [e1, e2] at t1
      rw [e2] at t2
      have e3 : getCell (boardSet b row c piece) (r + 2) c = piece := by
        rw [hre]
        exact hset
      rw [e3] at t2
      apply hB
      refine ⟨by omega, ?_, ?_⟩
      · have e : row - 1 = r + 1 := by omega
        rw [e]
        exact t2
      · have e : row - 2 = r := by omega
        rw [e]
        rw [t1]
        exact t2
  · intro r hr
    by_cases hrr : r = row
    · subst hrr
      rcases hpiece with rfl | rfl
      · have hold : sunsInRow b size r
            = (List.range col).countP (fun c2 => getCell b r c2 == 1) := by
          unfold sunsInRow
          exact countP_range_high_false (Nat.le_of_lt hcol)
            (fun i h1 h2 => by rw [hrow0 i h1 h2]; rfl)
        have hnew : sunsInRow (boardSet b r col 1) size r = sunsInRow b size r + 1 := by
          unfold sunsInRow
          apply countP_range_flip size col hcol
          · simp [hset]
          · simp [hcur]
          · intro i hi hic
            simp [hother r i (Or.inr hic)]
        have hmoons : moonsInRow (boardSet b r col 1) size r = moonsInRow b size r := by
          unfold moonsInRow
          apply countP_range_congr
          intro i hi
          by_cases hic : i = col
          · subst hic
            simp [hset, hcur]
          · simp [hother r i (Or.inr hic)]
        constructor
        · rw [hnew, hold]
          omega
        · rw [hmoons]
          exact (hbr r hr).2
      · have hold : moonsInRow b size r
            = (List.range col).countP (fun c2 => getCell b r c2 == 2) := by
          unfold moonsInRow
          exact countP_range_high_false (Nat.le_of_lt hcol)
            (fun i h1 h2 => by rw [hrow0 i h1 h2]; rfl)
        have hnew : moonsInRow (boardSet b r col 2) size r = moonsInRow b size r + 1 := by
          unfold moonsInRow
          apply countP_range_flip size col hcol
          · simp [hset]
          · simp [hcur]
          · intro i hi hic
            simp [hother r i (Or.inr hic)]
        have hsuns : sunsInRow (boardSet b r col 2) size r = sunsInRow b size r := by
          unfold sunsInRow
          apply countP_range_congr
          intro i hi
          by_cases hic : i = col
          · subst hic
            simp [hset, hcur]
          · simp [hother r i (Or.inr hic)]
        constructor
        · rw [hsuns]
          exact (hbr r hr).1
        · rw [hnew, hold]
          omega
    · have h1 : sunsInRow (boardSet b row col piece) size r = sunsInRow b size r := by
        unfold sunsInRow
        apply countP_range_congr
        intro i hi
        simp [hother r i (Or.inl hrr)]
      have h2 : moonsInRow (boardSet b row col piece) size r = moonsInRow b size r := by
        unfold moonsInRow
        apply countP_range_congr
        intro i hi
        simp [hother r i (Or.inl hrr)]
      rw [h1, h2]
      exact hbr r hr
  · intro c hc
    by_cases hcc : c = col
    · subst hcc
      rcases hpiece with rfl | rfl
      · have hold : sunsInCol b size c
            = (List.range row).countP (fun r2 => getCell b r2 c == 1) := by
          unfold sunsInCol
          exact countP_range_high_false (Nat.le_of_lt hrow)
            (fun i h1 h2 => by rw [hcol0 i h1 h2]; rfl)
        have hnew : sunsInCol (boardSet b row c 1) size c = sunsInCol b size c + 1 := by
          unfold sunsInCol
          apply countP_range_flip size row hrow
          · simp [hset]
          · simp [hcur]
          · intro i hi hir
            simp [hother i c (Or.inl hir)]
        have hmoons : moonsInCol (boardSet b row c 1) size c = moonsInCol b size c := by
          unfold moonsInCol
          apply countP_range_congr
          intro i hi
          by_cases hir : i = row
          · subst hir
            simp [hset, hcur]
          · simp [hother i c (Or.inl hir)]
        constructor
        · rw [hnew, hold]
          omega
        · rw [hmoons]
          exact (hbc c hc).2
      · have hold : moonsInCol b size c
            = (List.range row).countP (fun r2 => getCell b r2 c == 2) := by
          unfold moonsInCol
          exact countP_range_high_false (Nat.le_of_lt hrow)
            (fun i h1 h2 => by rw [hcol0 i h1 h2]; rfl)
        have hnew : moonsInCol (boardSet b row c 2) size c = moonsInCol b size c + 1 := by
          unfold moonsInCol
          apply countP_range_flip size row hrow
          · simp [hset]
          · simp [hcur]
          · intro i hi hir
            simp [hother i c (Or.inl hir)]
        have hsuns : sunsInCol (boardSet b row c 2) size c = sunsInCol b size c := by
          unfold sunsInCol
          apply countP_range_congr
          intro i hi
          by_cases hir : i = row
          · subst hir
            simp [hset, hcur]
          · simp [hother i c (Or.inl hir)]
        constructor
        · rw [hsuns]
          exact (hbc c hc).1
        · rw [hnew, hold]
          omega
    · have h1 : sunsInCol (boardSet b row col piece) size c = sunsInCol b size c := by
        unfold sunsInCol
        apply countP_range_congr
        intro i hi
        simp [hother i c (Or.inr hcc)]
      have h2 : moonsInCol (boardSet b row col piece) size c = moonsInCol b size c := by
        unfold moonsInCol
        apply countP_range_congr
        intro i hi
        simp [hother i c (Or.inr hcc)]
      rw [h1, h2]
      exact hbc c hc

theorem fillInv_init (size : Nat) : fillInv (createEmptyBoard size) size 0 := by
  refine ⟨shapeB_createEmptyBoard size, ?_, ?_, ?_, ?_, ?_, ?_⟩
  · intro r c _ _ h
    omega
  · intro r c _ _ _
    exact getCell_createEmptyBoard size r c
  · intro r c _ _ h
    omega
  · intro r c _ _ h
    omega
  · intro r _
    have h1 : sunsInRow (createEmptyBoard size) size r = 0 := by
      unfold sunsInRow
      rw [List.countP_eq_zero]
      intro a _
      simp [getCell_createEmptyBoard]
    have h2 : moonsInRow (createEmptyBoard size) size r = 0 := by
      unfold moonsInRow
      rw [List.countP_eq_zero]
      intro a _
      simp [getCell_createEmptyBoard]
    rw [h1, h2]
    omega
  · intro c _
    have h1 : sunsInCol (createEmptyBoard size) size c = 0 := by
      unfold sunsInCol
      rw [List.countP_eq_zero]
      intro a _
      simp [getCell_createEmptyBoard]
    have h2 : moonsInCol (createEmptyBoard size) size c = 0 := by
      unfold moonsInCol
      rw [List.countP_eq_zero]
      intro a _
      simp [getCell_createEmptyBoard]
    rw [h1, h2]
    omega

theorem fillBoard_inv_main {size : Nat} (hsize : size % 2 = 0) :
    ∀ fuel b row col b2,
      ((row < size ∧ col < size) ∨ (row = size ∧ col = 0)) →
      fillInv b size (row * size + col) →
      fillBoard size fuel b row col = some b2 →
      fillInv b2 size (size * size) := by
  intro fuel
  induction fuel with
  | zero =>
    intro b row col b2 hok hinv h
    simp only [fillBoard] at h
    split at h
    · rename_i hrow
      obtain rfl := Option.some.inj h
      subst hrow
      rcases hok with ⟨h1, _⟩ | ⟨_, h2⟩
      · omega
      · subst h2
        simpa using hinv
    · exact absurd h (by simp)
  | succ fuel ih =>
    intro b row col b2 hok hinv h
    simp only [fillBoard] at h
    by_cases hrow : row = size
    · rw [if_pos hrow] at h
      obtain rfl := Option.some.inj h
      subst hrow
      rcases hok with ⟨h1, _⟩ | ⟨_, h2⟩
      · omega
      · subst h2
        simpa using hinv
    · rw [if_neg hrow] at h
      have hrc : row < size ∧ col < size := by
        rcases hok with h1 | h1
        · exact h1
        · exact absurd h1.1 hrow
      have hok2 : ((if col = size - 1 then row + 1 else row) < size
            ∧ (if col = size - 1 then 0 else col + 1) < size)
          ∨ ((if col = size - 1 then row + 1 else row) = size
            ∧ (if col = size - 1 then 0 else col + 1) = 0) := by
        by_cases hc : col = size - 1
        · rw [if_pos hc, if_pos hc]
          by_cases hr1 : row + 1 < size
          · exact Or.inl ⟨hr1, by omega⟩
          · exact Or.inr ⟨by omega, rfl⟩
        · rw [if_neg hc, if_neg hc]
          exact Or.inl ⟨hrc.1, by omega⟩
      have hpos := @nextPos_eq size row col hrc.2
      split at h
      · rename_i b1 hfirst
        obtain rfl := Option.some.inj h
        by_cases hvp : isValidPlacement b row col size
            (if (row * size + col) % 2 = 0 then 1 else 2) = true
        · rw [if_pos hvp] at hfirst
          apply ih _ _ _ _ hok2 _ hfirst
          rw [hpos]
          exact fillInv_step hsize hrc.1 hrc.2 (by split <;> simp) hinv hvp
        · rw [if_neg hvp] at hfirst
          exact absurd hfirst (by simp)
      · by_cases hvp : isValidPlacement b row col size
            (if (row * size + col) % 2 = 0 then 2 else 1) = true
        · rw [if_pos hvp] at h
          apply ih _ _ _ _ hok2 _ h
          rw [hpos]
          exact fillInv_step hsize hrc.1 hrc.2 (by split <;> simp) hinv hvp
        · rw [if_neg hvp] at h
          exact absurd h (by simp)

theorem fillBoard_valid {size : Nat} {b2 : Board} (hsize : size % 2 = 0)
    (h : fillBoard size (size * size) (createEmptyBoard size) 0 0 = some b2) :
    shapeB b2 size
    ∧ (∀ r c, r < size → c < size → getCell b2 r c = 1 ∨ getCell b2 r c = 2)
    ∧ (∀ r, r < size → sunsInRow b2 size r = size / 2 ∧ moonsInRow b2 size r = size / 2)
    ∧ (∀ c, c < size → sunsInCol b2 size c = size / 2 ∧ moonsInCol b2 size c = size / 2)
    ∧ (∀ r c, r < size → c + 2 < size →
        ¬(getCell b2 r c = getCell b2 r (c + 1) ∧ getCell b2 r (c + 1) = getCell b2 r (c + 2)))
    ∧ (∀ r c, r + 2 < size → c < size →
        ¬(getCell b2 r c = getCell b2 (r + 1) c ∧ getCell b2 (r + 1) c = getCell b2 (r + 2) c)) := by
  have hbase : fillInv (createEmptyBoard size) size 0 := fillInv_init size
  have hok : ((0 < size ∧ 0 < size) ∨ ((0 : Nat) = size ∧ (0 : Nat) = 0)) := by
    rcases Nat.eq_zero_or_pos size with h0 | h0
    · exact Or.inr ⟨h0.symm, rfl⟩
    · exact Or.inl ⟨h0, h0⟩
  have hfinal := fillBoard_inv_main hsize (size * size) _ 0 0 b2 hok (by simpa using hbase) h
  obtain ⟨hshape, hpre, _, hnr, hnc, hbr, hbc⟩ := hfinal
  have hfilled : ∀ r c, r < size → c < size → getCell b2 r c = 1 ∨ getCell b2 r c = 2 :=
    fun r c hr hc => hpre r c hr hc (cell_index_lt hr hc)
  refine ⟨hshape, hfilled, ?_, ?_, ?_, ?_⟩
  · intro r hr
    have hsum : sunsInRow b2 size r + moonsInRow b2 size r = size := by
      unfold sunsInRow moonsInRow
      exact counts_add (fun i hi => hfilled r i hr hi)
    have hb := hbr r hr
    omega
  · intro c hc
    have hsum : sunsInCol b2 size c + moonsInCol b2 size c = size := by
      unfold sunsInCol moonsInCol
      exact counts_add (fun i hi => hfilled i c hi hc)
    have hb := hbc c hc
    omega
  · intro r c hr hc
    exact hnr r c hr hc (cell_index_lt hr hc)
  · intro r c hr hc
    exact hnc r c hr hc (cell_index_lt hr hc)

theorem hasDupRows_false_distinct {sol : Board} {size : Nat}
    (h : hasDupRows sol size = false) :
    ∀ r1 r2, r1 < size → r2 < size → r1 ≠ r2 →
      ∃ c, c < size ∧ getCell sol r1 c ≠ getCell sol r2 c := by
  intro r1 r2 h1 h2 hne
  by_contra hcon
  push_neg at hcon
  have hmm : ∀ c, c < size → getCell sol (min r1 r2) c = getCell sol (max r1 r2) c := by
    intro c hc
    rcases Nat.le_total r1 r2 with hle | hle
    · rw [Nat.min_eq_left hle, Nat.max_eq_right hle]
      exact hcon c hc
    · rw [Nat.min_eq_right hle, Nat.max_eq_left hle]
      exact (hcon c hc).symm
  have htrue : hasDupRows sol size = true := by
    unfold hasDupRows
    rw [List.any_eq_true]
    refine ⟨min r1 r2, List.mem_range.mpr (by omega), ?_⟩
    rw [List.any_eq_true]
    refine ⟨max r1 r2, List.mem_range.mpr (by omega), ?_⟩
    rw [Bool.and_eq_true]
    constructor
    · rw [decide_eq_true_eq]
      omega
    · rw [List.all_eq_true]
      intro c hcmem
      rw [beq_iff_eq]
      exact hmm c (List.mem_range.mp hcmem)
  rw [htrue] at h
  exact absurd h (by simp)

/-- Claim C1: for every even size at least 4, whenever generate
returns a level, the returned solution board satisfies the three
structural invariants: every row and column holds exactly size / 2
cells of each non-empty value, no three consecutive cells of a row or
column are equal, and all rows are pairwise distinct. -/
theorem c1_solution_invariants (size : Nat) (seed : Option (List Nat))
    (difficulty : Difficulty) (ent : Nat → Frac) (lvl : GeneratedLevel)
    (hsize : size % 2 = 0) (h4 : 4 ≤ size)
    (h : generate size seed difficulty ent = some lvl) :
    (∀ r, r < size → sunsInRow lvl.solution size r = size / 2
      ∧ moonsInRow lvl.solution size r = size / 2)
    ∧ (∀ c, c < size → sunsInCol lvl.solution size c = size / 2
      ∧ moonsInCol lvl.solution size c = size / 2)
    ∧ (∀ r c, r < size → c + 2 < size →
        ¬(getCell lvl.solution r c = getCell lvl.solution r (c + 1)
          ∧ getCell lvl.solution r (c + 1) = getCell lvl.solution r (c + 2)))
    ∧ (∀ r c, r + 2 < size → c < size →
        ¬(getCell lvl.solution r c = getCell lvl.solution (r + 1) c
          ∧ getCell lvl.solution (r + 1) c = getCell lvl.solution (r + 2) c))
    ∧ (∀ r1 r2, r1 < size → r2 < size → r1 ≠ r2 →
        ∃ c, c < size ∧ getCell lvl.solution r1 c ≠ getCell lvl.solution r2 c) := by
  obtain ⟨sol, items, rng1, cells, rng2, cs1, curC, puz2, curCell, hfb, hsh1, hsh2,
    hp1, hp2, hdup, hlvl⟩ := generate_elim h
  have hval := fillBoard_valid hsize hfb
  have hsol : lvl.solution = sol := by rw [hlvl]
  rw [hsol]
  exact ⟨hval.2.2.1, hval.2.2.2.1, hval.2.2.2.2.1, hval.2.2.2.2.2,
    hasDupRows_false_distinct hdup⟩

/-- Witness for C1 at the concrete seeded level of size 4. -/
theorem c1_witness :
    (4 : Nat) % 2 = 0 ∧ (4 : Nat) ≤ 4
    ∧ generate 4 (some [65]) Difficulty.medium demoEnt = some demoLevelSeeded
    ∧ ((∀ r, r < 4 → sunsInRow demoLevelSeeded.solution 4 r = 4 / 2
          ∧ moonsInRow demoLevelSeeded.solution 4 r = 4 / 2)
       ∧ (∀ c, c < 4 → sunsInCol demoLevelSeeded.solution 4 c = 4 / 2
          ∧ moonsInCol demoLevelSeeded.solution 4 c = 4 / 2)
       ∧ (∀ r c, r < 4 → c + 2 < 4 →
            ¬(getCell demoLevelSeeded.solution r c = getCell demoLevelSeeded.solution r (c + 1)
              ∧ getCell demoLevelSeeded.solution r (c + 1) = getCell demoLevelSeeded.solution r (c + 2)))
       ∧ (∀ r c, r + 2 < 4 → c < 4 →
            ¬(getCell demoLevelSeeded.solution r c = getCell demoLevelSeeded.solution (r + 1) c
              ∧ getCell demoLevelSeeded.solution (r + 1) c = getCell demoLevelSeeded.solution (r + 2) c))
       ∧ (∀ r1 r2, r1 < 4 → r2 < 4 → r1 ≠ r2 →
            ∃ c, c < 4 ∧ getCell demoLevelSeeded.solution r1 c ≠ getCell demoLevelSeeded.solution r2 c)) :=
  ⟨by decide, by decide, by decide,
    c1_solution_invariants 4 (some [65]) Difficulty.medium demoEnt demoLevelSeeded
      (by decide) (by decide) (by decide)⟩

/-! ### Soundness of the deduction engine (claim C3) -/


theorem opposite_of_ne {a v : Nat} (ha : a = 1 ∨ a = 2) (hv : v = 1 ∨ v = 2)
    (hne : a ≠ v) : a = getOpposite v := by
  unfold getOpposite
  rcases hv with rfl | rfl <;> rcases ha with rfl | rfl <;> simp_all

theorem findLogicalMove_sound {b sol : Board} {size : Nat} {cs : Constraints} {m : Move}
    (hval : solValid sol size) (hagree : agreesWith b sol size)
    (hcs : csConsistent cs sol size)
    (hm : findLogicalMove b size cs = some m) :
    getCell sol m.r m.c = m.val := by
  obtain ⟨hcells, hbalR, hbalC, hnr, hnc⟩ := hval
  rcases findLogicalMove_elim hm with h | h | h | h | h
  · -- run-avoidance
    unfold rule1 at h
    obtain ⟨r, hrmem, h⟩ := findSome?_eq_some_ex h
    obtain ⟨c, hcmem, h⟩ := findSome?_eq_some_ex h
    rw [List.mem_range] at hrmem hcmem
    obtain ⟨h0, hmr, hmc, hdisj⟩ := rule1At_cases h
    rw [hmr, hmc]
    have hsolrc := hcells r c hrmem hcmem
    rcases hdisj with h1 | h1 | h1 | h1 | h1 | h1
    · -- left pair (c-1, c-2)
      obtain ⟨hb1, hb2, hne1, heq12, hvdef⟩ := checkLine_elim h1
      obtain ⟨_, _, hc1a, hc1b⟩ := isValidPosI_elim hb1
      obtain ⟨_, _, hc2a, hc2b⟩ := isValidPosI_elim hb2
      have e0 : ((r : Int) + 0).toNat = r := by omega
      have e1 : ((c : Int) + (-1)).toNat = c - 1 := by omega
      have e2 : ((c : Int) + (-2)).toNat = c - 2 := by omega
      rw [e0, e1] at hne1 heq12 hvdef
      rw [e2] at heq12
      have hged : 2 ≤ c := by omega
      have hs1 : getCell b r (c - 1) = getCell sol r (c - 1) :=
        hagree r (c - 1) hrmem (by omega) hne1
      have hs2 : getCell b r (c - 2) = getCell sol r (c - 2) :=
        hagree r (c - 2) hrmem (by omega) (by rw [← heq12]; exact hne1)
      have hv12 : getCell sol r (c - 1) = 1 ∨ getCell sol r (c - 1) = 2 :=
        hcells r (c - 1) hrmem (by omega)
      have hnev : getCell sol r c ≠ getCell b r (c - 1) := by
        intro hcon
        apply hnr r (c - 2) hrmem (by omega)
        have ea : c - 2 + 1 = c - 1 := by omega
        have eb : c - 2 + 2 = c := by omega
        rw [ea, eb]
        constructor
        · rw [← hs2, ← heq12, hs1]
        · rw [← hs1, ← hcon]
      rw [hvdef]
      exact opposite_of_ne hsolrc (hs1 ▸ hv12) hnev
    · -- right pair (c+1, c+2)
      obtain ⟨hb1, hb2, hne1, heq12, hvdef⟩ := checkLine_elim h1
      obtain ⟨_, _, hc1a, hc1b⟩ := isValidPosI_elim hb1
      obtain ⟨_, _, hc2a, hc2b⟩ := isValidPosI_elim hb2
      have e0 : ((r : Int) + 0).toNat = r := by omega
      have e1 : ((c : Int) + 1).toNat = c + 1 := by omega
      have e2 : ((c : Int) + 2).toNat = c + 2 := by omega
      rw [e0, e1] at hne1 heq12 hvdef
      rw [e2] at heq12
      have hs1 : getCell b r (c + 1) = getCell sol r (c + 1) :=
        hagree r (c + 1) hrmem (by omega) hne1
      have hs2 : getCell b r (c + 2) = getCell sol r (c + 2) :=
        hagree r (c + 2) hrmem (by omega) (by rw [← heq12]; exact hne1)
      have hv12 : getCell sol r (c + 1) = 1 ∨ getCell sol r (c + 1) = 2 :=
        hcells r (c + 1) hrmem (by omega)
      have hnev : getCell sol r c ≠ getCell b r (c + 1) := by
        intro hcon
        apply hnr r c hrmem (by omega)
        constructor
        · rw [← hs1, ← hcon]
        · rw [← hs1, ← hs2, heq12]
      rw [hvdef]
      exact opposite_of_ne hsolrc (hs1 ▸ hv12) hnev
    · -- split pair (c-1, c+1)
      obtain ⟨hb1, hb2, hne1, heq12, hvdef⟩ := checkLine_elim h1
      obtain ⟨_, _, hc1a, hc1b⟩ := isValidPosI_elim hb1
      obtain ⟨_, _, hc2a, hc2b⟩ := isValidPosI_elim hb2
      have e0 : ((r : Int) + 0).toNat = r := by omega
      have e1 : ((c : Int) + (-1)).toNat = c - 1 := by omega
      have e2 : ((c : Int) + 1).toNat = c + 1 := by omega
      rw [e0, e1] at hne1 heq12 hvdef
      rw [e2] at heq12
      have hged : 1 ≤ c := by omega
      have hs1 : getCell b r (c - 1) = getCell sol r (c - 1) :=
        hagree r (c - 1) hrmem (by omega) hne1
      have hs2 : getCell b r (c + 1) = getCell sol r (c + 1) :=
        hagree r (c + 1) hrmem (by omega) (by rw [← heq12]; exact hne1)
      have hv12 : getCell sol r (c - 1) = 1 ∨ getCell sol r (c - 1) = 2 :=
        hcells r (c - 1) hrmem (by omega)
      have hnev : getCell sol r c ≠ getCell b r (c - 1) := by
        intro hcon
        apply hnr r (c - 1) hrmem (by omega)
        have ea : c - 1 + 1 = c := by omega
        have eb : c - 1 + 2 = c + 1 := by omega
        rw [ea, eb]
        constructor
        · rw [← hs1, ← hcon]
        · rw [hcon, heq12, hs2]
      rw [hvdef]
      exact opposite_of_ne hsolrc (hs1 ▸ hv12) hnev
    · -- upper pair (r-1, r-2)
      obtain ⟨hb1, hb2, hne1, heq12, hvdef⟩ := checkLine_elim h1
      obtain ⟨hr1a, hr1b, _, _⟩ := isValidPosI_elim hb1
      obtain ⟨hr2a, hr2b, _, _⟩ := isValidPosI_elim hb2
      have e0 : ((c : Int) + 0).toNat = c := by omega
      have e1 : ((r : Int) + (-1)).toNat = r - 1 := by omega
      have e2 : ((r : Int) + (-2)).toNat = r - 2 := by omega
      rw [e0, e1] at hne1 heq12 hvdef
      rw [e2] at heq12
      have hged : 2 ≤ r := by omega
      have hs1 : getCell b (r - 1) c = getCell sol (r - 1) c :=
        hagree (r - 1) c (by omega) hcmem hne1
      have hs2 : getCell b (r - 2) c = getCell sol (r - 2) c :=
        hagree (r - 2) c (by omega) hcmem (by rw [← heq12]; exact hne1)
      have hv12 : getCell sol (r - 1) c = 1 ∨ getCell sol (r - 1) c = 2 :=
        hcells (r - 1) c (by omega) hcmem
      have hnev : getCell sol r c ≠ getCell b (r - 1) c := by
        intro hcon
        apply hnc (r - 2) c (by omega) hcmem
        have ea : r - 2 + 1 = r - 1 := by omega
        have eb : r - 2 + 2 = r := by omega
        rw [ea, eb]
        constructor
        · rw [← hs2, ← heq12, hs1]
        · rw [← hs1, ← hcon]
      rw [hvdef]
      exact opposite_of_ne hsolrc (hs1 ▸ hv12) hnev
    · -- lower pair (r+1, r+2)
      obtain ⟨hb1, hb2, hne1, heq12, hvdef⟩ := checkLine_elim h1
      obtain ⟨hr1a, hr1b, _, _⟩ := isValidPosI_elim hb1
      obtain ⟨hr2a, hr2b, _, _⟩ := isValidPosI_elim hb2
      have e0 : ((c : Int) + 0).toNat = c := by omega
      have e1 : ((r : Int) + 1).toNat = r + 1 := by omega
      have e2 : ((r : Int) + 2).toNat = r + 2 := by omega
      rw [e0, e1] at hne1 heq12 hvdef
      rw [e2] at heq12
      have hs1 : getCell b (r + 1) c = getCell sol (r + 1) c :=
        hagree (r + 1) c (by omega) hcmem hne1
      have hs2 : getCell b (r + 2) c = getCell sol (r + 2) c :=
        hagree (r + 2) c (by omega) hcmem (by rw [← heq12]; exact hne1)
      have hv12 : getCell sol (r + 1) c = 1 ∨ getCell sol (r + 1) c = 2 :=
        hcells (r + 1) c (by omega) hcmem
      have hnev : getCell sol r c ≠ getCell b (r + 1) c := by
        intro hcon
        apply hnc r c (by omega) hcmem
        constructor
        · rw [← hs1, ← hcon]
        · rw [← hs1, ← hs2, heq12]
      rw [hvdef]
      exact opposite_of_ne hsolrc (hs1 ▸ hv12) hnev
    · -- vertical split pair (r-1, r+1)
      obtain ⟨hb1, hb2, hne1, heq12, hvdef⟩ := checkLine_elim h1
      obtain ⟨hr1a, hr1b, _, _⟩ := isValidPosI_elim hb1
      obtain ⟨hr2a, hr2b, _, _⟩ := isValidPosI_elim hb2
      have e0 : ((c : Int) + 0).toNat = c := by omega
      have e1 : ((r : Int) + (-1)).toNat = r - 1 := by omega
      have e2 : ((r : Int) + 1).toNat = r + 1 := by omega
      rw [e0, e1] at hne1 heq12 hvdef
      rw [e2] at heq12
      have hged : 1 ≤ r := by omega
      have hs1 : getCell b (r - 1) c = getCell sol (r - 1) c :=
        hagree (r - 1) c (by omega) hcmem hne1
      have hs2 : getCell b (r + 1) c = getCell sol (r + 1) c :=
        hagree (r + 1) c (by omega) hcmem (by rw [← heq12]; exact hne1)
      have hv12 : getCell sol (r - 1) c = 1 ∨ getCell sol (r - 1) c = 2 :=
        hcells (r - 1) c (by omega) hcmem
      have hnev : getCell sol r c ≠ getCell b (r - 1) c := by
        intro hcon
        apply hnc (r - 1) c (by omega) hcmem
        have ea : r - 1 + 1 = r := by omega
        have eb : r - 1 + 2 = r + 1 := by omega
        rw [ea, eb]
        constructor
        · rw [← hs1, ← hcon]
        · rw [hcon, heq12, hs2]
      rw [hvdef]
      exact opposite_of_ne hsolrc (hs1 ▸ hv12) hnev
  · -- horizontal constraint propagation
    obtain ⟨r, c, sym, hr, hc, hsym, hd⟩ := rule2H_elim h
    have hsolc := (hcs.1 r c hr hc)
    rcases hd with ⟨hv1, hv2, rfl⟩ | ⟨hv1, hv2, rfl⟩
    · have hs1 : getCell b r c = getCell sol r c := hagree r c hr (by omega) hv1
      cases sym
      · show getCell sol r (c + 1) = getCell b r c
        rw [hs1, ← hsolc.1 hsym]
      · show getCell sol r (c + 1) = getOpposite (getCell b r c)
        apply opposite_of_ne (hcells r (c + 1) hr (by omega))
          (hs1 ▸ hcells r c hr (by omega))
        rw [hs1]
        exact fun hcon => hsolc.2 hsym hcon.symm
    · have hs2 : getCell b r (c + 1) = getCell sol r (c + 1) :=
        hagree r (c + 1) hr (by omega) hv2
      cases sym
      · show getCell sol r c = getCell b r (c + 1)
        rw [hs2, hsolc.1 hsym]
      · show getCell sol r c = getOpposite (getCell b r (c + 1))
        apply opposite_of_ne (hcells r c hr (by omega))
          (hs2 ▸ hcells r (c + 1) hr (by omega))
        rw [hs2]
        exact hsolc.2 hsym
  · -- vertical constraint propagation
    obtain ⟨r, c, sym, hr, hc, hsym, hd⟩ := rule2V_elim h
    have hsolc := (hcs.2 r c hr hc)
    rcases hd with ⟨hv1, hv2, rfl⟩ | ⟨hv1, hv2, rfl⟩
    · have hs1 : getCell b r c = getCell sol r c := hagree r c (by omega) hc hv1
      cases sym
      · show getCell sol (r + 1) c = getCell b r c
        rw [hs1, ← hsolc.1 hsym]
      · show getCell sol (r + 1) c = getOpposite (getCell b r c)
        apply opposite_of_ne (hcells (r + 1) c (by omega) hc)
          (hs1 ▸ hcells r c (by omega) hc)
        rw [hs1]
        exact fun hcon => hsolc.2 hsym hcon.symm
    · have hs2 : getCell b (r + 1) c = getCell sol (r + 1) c :=
        hagree (r + 1) c (by omega) hc hv2
      cases sym
      · show getCell sol r c = getCell b (r + 1) c
        rw [hs2, hsolc.1 hsym]
      · show getCell sol r c = getOpposite (getCell b (r + 1) c)
        apply opposite_of_ne (hcells r c (by omega) hc)
          (hs2 ▸ hcells (r + 1) c (by omega) hc)
        rw [hs2]
        exact hsolc.2 hsym
  · -- row balance completion
    obtain ⟨r, c0, hr, hc0, hd⟩ := rule3Row_elim h
    obtain ⟨hc0lt, hc0v⟩ := firstEmptyInRow_spec hc0
    have hsolc0 := hcells r c0 hr hc0lt
    rcases hd with ⟨hsuns, rfl⟩ | ⟨hmoons, rfl⟩
    · show getCell sol r c0 = 2
      rcases hsolc0 with h1 | h1
      · exfalso
        have hlt : sunsInRow b size r < sunsInRow sol size r := by
          unfold sunsInRow
          apply countP_range_lt size c0 hc0lt
          · simp [hc0v]
          · simp [h1]
          · intro i hi hpi
            simp only [beq_iff_eq] at hpi ⊢
            rw [← hagree r i hr hi (by omega)]
            exact hpi
        have hb2 := (hbalR r hr).1
        omega
      · exact h1
    · show getCell sol r c0 = 1
      rcases hsolc0 with h1 | h1
      · exact h1
      · exfalso
        have hlt : moonsInRow b size r < moonsInRow sol size r := by
          unfold moonsInRow
          apply countP_range_lt size c0 hc0lt
          · simp [hc0v]
          · simp [h1]
          · intro i hi hpi
            simp only [beq_iff_eq] at hpi ⊢
            rw [← hagree r i hr hi (by omega)]
            exact hpi
        have hb2 := (hbalR r hr).2
        omega
  · -- column balance completion
    obtain ⟨c, r0, hc, hr0, hd⟩ := rule3Col_elim h
    obtain ⟨hr0lt, hr0v⟩ := firstEmptyInCol_spec hr0
    have hsolr0 := hcells r0 c hr0lt hc
    rcases hd with ⟨hsuns, rfl⟩ | ⟨hmoons, rfl⟩
    · show getCell sol r0 c = 2
      rcases hsolr0 with h1 | h1
      · exfalso
        have hlt : sunsInCol b size c < sunsInCol sol size c := by
          unfold sunsInCol
          apply countP_range_lt size r0 hr0lt
          · simp [hr0v]
          · simp [h1]
          · intro i hi hpi
            simp only [beq_iff_eq] at hpi ⊢
            rw [← hagree i c hi hc (by omega)]
            exact hpi
        have hb2 := (hbalC c hc).1
        omega
      · exact h1
    · show getCell sol r0 c = 1
      rcases hsolr0 with h1 | h1
      · exact h1
      · exfalso
        have hlt : moonsInCol b size c < moonsInCol sol size c := by
          unfold moonsInCol
          apply countP_range_lt size r0 hr0lt
          · simp [hr0v]
          · simp [h1]
          · intro i hi hpi
            simp only [beq_iff_eq] at hpi ⊢
            rw [← hagree i c hi hc (by omega)]
            exact hpi
        have hb2 := (hbalC c hc).2
        omega

/-! ### Reduction-step normal forms and invariants -/

theorem phase1Step_hSlot (size : Nat) (puzzle : Board) (cs : Constraints) (cur r c : Nat) :
    phase1Step size puzzle cs cur (ConsItem.hSlot r c)
      = if (solveLogically puzzle size ⟨setSym cs.h r c none, cs.v⟩).fst = true
        then (⟨setSym cs.h r c none, cs.v⟩, cur - 1) else (cs, cur) := by
  simp only [phase1Step]
  split
  · rfl
  · rw [setSym_restore]

theorem phase1Step_vSlot (size : Nat) (puzzle : Board) (cs : Constraints) (cur r c : Nat) :
    phase1Step size puzzle cs cur (ConsItem.vSlot r c)
      = if (solveLogically puzzle size ⟨cs.h, setSym cs.v r c none⟩).fst = true
        then (⟨cs.h, setSym cs.v r c none⟩, cur - 1) else (cs, cur) := by
  simp only [phase1Step]
  split
  · rfl
  · rw [setSym_restore]

theorem phase2Step_eq (size : Nat) (cs : Constraints) (puzzle : Board) (cur : Nat)
    (rc : Nat × Nat) :
    phase2Step size cs puzzle cur rc
      = if (solveLogically (boardSet puzzle rc.1 rc.2 0) size cs).fst = true
        then (boardSet puzzle rc.1 rc.2 0, cur - 1) else (puzzle, cur) := by
  simp only [phase2Step]
  split
  · rfl
  · rw [boardSet_restore]

theorem phase1_solvable {size : Nat} {puzzle : Board} {target : Nat} :
    ∀ items cs cur, (solveLogically puzzle size cs).fst = true →
      (solveLogically puzzle size (phase1 size puzzle target items cs cur).1).fst = true := by
  intro items
  induction items with
  | nil =>
    intro cs cur h
    exact h
  | cons item rest ih =>
    intro cs cur h
    simp only [phase1]
    split
    · exact h
    · cases item with
      | hSlot r c =>
        rw [phase1Step_hSlot]
        split
        · rename_i hs
          simp only []
          exact ih _ _ hs
        · simp only []
          exact ih _ _ h
      | vSlot r c =>
        rw [phase1Step_vSlot]
        split
        · rename_i hs
          simp only []
          exact ih _ _ hs
        · simp only []
          exact ih _ _ h

theorem phase2_solvable {size : Nat} {cs : Constraints} {target : Nat} :
    ∀ cells puzzle cur, (solveLogically puzzle size cs).fst = true →
      (solveLogically (phase2 size cs target cells puzzle cur).1 size cs).fst = true := by
  intro cells
  induction cells with
  | nil =>
    intro p cur h
    exact h
  | cons rc rest ih =>
    intro p cur h
    simp only [phase2]
    split
    · exact h
    · rw [phase2Step_eq]
      split
      · rename_i hs
        simp only []
        exact ih _ _ hs
      · simp only []
        exact ih _ _ h


theorem getSym_setSym_or (g : ConstraintGrid) (r c : Nat) (s : Option CSym) (r2 c2 : Nat) :
    getSym (setSym g r c s) r2 c2 = getSym g r2 c2 ∨ getSym (setSym g r c s) r2 c2 = s := by
  by_cases hr : r2 = r
  · by_cases hc : c2 = c
    · subst hr
      subst hc
      unfold getSym setSym
      rcases Nat.lt_or_ge r2 g.length with hlt | hge
      · rw [getD_set_self _ _ _ _ hlt]
        rcases Nat.lt_or_ge c2 (g.getD r2 []).length with hclt | hcge
        · exact Or.inr (getD_set_self _ _ _ _ hclt)
        · rw [List.set_eq_of_length_le hcge]
          exact Or.inl rfl
      · rw [List.set_eq_of_length_le hge]
        exact Or.inl rfl
    · left
      unfold getSym setSym
      by_cases hrg : r2 < g.length
      · subst hr
        rw [getD_set_self _ _ _ _ hrg, getD_set_ne _ _ _ (fun he => hc he.symm)]
      · subst hr
        rw [List.set_eq_of_length_le (by omega)]
  · left
    unfold getSym setSym
    rw [getD_set_ne _ _ _ (fun he => hr he.symm)]

theorem subCS_refl (cs : Constraints) : subCS cs cs :=
  ⟨fun _ _ _ h => h, fun _ _ _ h => h⟩

theorem subCS_trans {csa csb csc : Constraints} (h1 : subCS csa csb) (h2 : subCS csb csc) :
    subCS csa csc :=
  ⟨fun r c sym h => h2.1 r c sym (h1.1 r c sym h),
   fun r c sym h => h2.2 r c sym (h1.2 r c sym h)⟩

theorem phase1Step_sub (size : Nat) (puzzle : Board) (cs : Constraints) (cur : Nat)
    (item : ConsItem) : subCS (phase1Step size puzzle cs cur item).1 cs := by
  cases item with
  | hSlot r c =>
    rw [phase1Step_hSlot]
    split
    · constructor
      · intro r2 c2 sym h
        rcases getSym_setSym_or cs.h r c none r2 c2 with he | he
        · rw [he] at h
          exact h
        · rw [he] at h
          exact absurd h (by simp)
      · intro r2 c2 sym h
        exact h
    · exact subCS_refl cs
  | vSlot r c =>
    rw [phase1Step_vSlot]
    split
    · constructor
      · intro r2 c2 sym h
        exact h
      · intro r2 c2 sym h
        rcases getSym_setSym_or cs.v r c none r2 c2 with he | he
        · rw [he] at h
          exact h
        · rw [he] at h
          exact absurd h (by simp)
    · exact subCS_refl cs

theorem phase1_sub {size : Nat} {puzzle : Board} {target : Nat} :
    ∀ items cs cur, subCS (phase1 size puzzle target items cs cur).1 cs := by
  intro items
  induction items with
  | nil =>
    intro cs cur
    exact subCS_refl cs
  | cons item rest ih =>
    intro cs cur
    simp only [phase1]
    split
    · exact subCS_refl cs
    · rcases hstep : phase1Step size puzzle cs cur item with ⟨cs2, cur2⟩
      have hsub := phase1Step_sub size puzzle cs cur item
      rw [hstep] at hsub
      simp only [] at hsub ⊢
      exact subCS_trans (ih cs2 cur2) hsub

theorem csConsistent_of_sub {csa csb : Constraints} {sol : Board} {size : Nat}
    (hsub : subCS csa csb) (h : csConsistent csb sol size) :
    csConsistent csa sol size := by
  constructor
  · intro r c hr hc
    exact ⟨fun he => (h.1 r c hr hc).1 (hsub.1 r c _ he),
      fun he => (h.1 r c hr hc).2 (hsub.1 r c _ he)⟩
  · intro r c hr hc
    exact ⟨fun he => (h.2 r c hr hc).1 (hsub.2 r c _ he),
      fun he => (h.2 r c hr hc).2 (hsub.2 r c _ he)⟩

theorem deriveH_getSym {sol : Board} {size r c : Nat} (hr : r < size) (hc : c < size - 1) :
    getSym (deriveH sol size) r c
      = some (if getCell sol r c = getCell sol r (c + 1) then CSym.EQUAL else CSym.CROSS) := by
  unfold getSym
  have houter : (deriveH sol size).getD r []
      = (List.range (size - 1)).map
        (fun c2 => if getCell sol r c2 = getCell sol r (c2 + 1) then some CSym.EQUAL
          else some CSym.CROSS) := by
    unfold deriveH
    rw [List.getD_eq_getElem?_getD, List.getElem?_map, List.getElem?_range hr]
    rfl
  rw [houter, List.getD_eq_getElem?_getD, List.getElem?_map, List.getElem?_range hc]
  by_cases hp : getCell sol r c = getCell sol r (c + 1) <;> simp [hp]

theorem deriveV_getSym {sol : Board} {size r c : Nat} (hr : r < size - 1) (hc : c < size) :
    getSym (deriveV sol size) r c
      = some (if getCell sol r c = getCell sol (r + 1) c then CSym.EQUAL else CSym.CROSS) := by
  unfold getSym
  have houter : (deriveV sol size).getD r []
      = (List.range size).map
        (fun c2 => if getCell sol r c2 = getCell sol (r + 1) c2 then some CSym.EQUAL
          else some CSym.CROSS) := by
    unfold deriveV
    rw [List.getD_eq_getElem?_getD, List.getElem?_map, List.getElem?_range hr]
    rfl
  rw [houter, List.getD_eq_getElem?_getD, List.getElem?_map, List.getElem?_range hc]
  by_cases hp : getCell sol r c = getCell sol (r + 1) c <;> simp [hp]

theorem csFull_consistent {sol : Board} {size : Nat} :
    csConsistent ⟨deriveH sol size, deriveV sol size⟩ sol size := by
  constructor
  · intro r c hr hc
    constructor
    · intro he
      replace he : getSym (deriveH sol size) r c = some CSym.EQUAL := he
      rw [deriveH_getSym hr hc] at he
      by_cases hp : getCell sol r c = getCell sol r (c + 1)
      · exact hp
      · rw [if_neg hp] at he
        simp at he
    · intro he
      replace he : getSym (deriveH sol size) r c = some CSym.CROSS := he
      rw [deriveH_getSym hr hc] at he
      by_cases hp : getCell sol r c = getCell sol r (c + 1)
      · rw [if_pos hp] at he
        simp at he
      · exact hp
  · intro r c hr hc
    constructor
    · intro he
      replace he : getSym (deriveV sol size) r c = some CSym.EQUAL := he
      rw [deriveV_getSym hr hc] at he
      by_cases hp : getCell sol r c = getCell sol (r + 1) c
      · exact hp
      · rw [if_neg hp] at he
        simp at he
    · intro he
      replace he : getSym (deriveV sol size) r c = some CSym.CROSS := he
      rw [deriveV_getSym hr hc] at he
      by_cases hp : getCell sol r c = getCell sol (r + 1) c
      · rw [if_pos hp] at he
        simp at he
      · exact hp

theorem solveLogically_full {size : Nat} {b : Board} {cs : Constraints}
    (h : ∀ r c, r < size → c < size → getCell b r c ≠ 0) :
    (solveLogically b size cs).fst = true := by
  have h0 : countEmpty b size = 0 := by
    unfold countEmpty
    rw [List.sum_eq_zero_iff]
    intro x hx
    obtain ⟨r, hr, rfl⟩ := List.mem_map.mp hx
    rw [List.countP_eq_zero]
    intro c hc
    simp [h r c (List.mem_range.mp hr) (List.mem_range.mp hc)]
  unfold solveLogically
  simp only [h0]
  exact boardFull_iff.mpr h0

theorem boardFull_filled {b : Board} {size : Nat} (h : boardFull b size = true) :
    ∀ r c, r < size → c < size → getCell b r c ≠ 0 :=
  fun r c hr hc => countEmpty_zero_filled (boardFull_iff.mp h) hr hc

theorem solveLoop_agrees {size : Nat} {cs : Constraints} {sol : Board}
    (hval : solValid sol size) (hcs : csConsistent cs sol size) :
    ∀ fuel b, agreesWith b sol size → agreesWith (solveLoop size cs fuel b) sol size := by
  intro fuel
  induction fuel with
  | zero =>
    intro b h
    exact h
  | succ f ih =>
    intro b hagree
    simp only [solveLoop]
    cases hm : findLogicalMove b size cs with
    | none => exact hagree
    | some m =>
      apply ih
      have hsnd := findLogicalMove_sound hval hagree hcs hm
      intro r c hr hc hne
      by_cases hpos : r = m.r ∧ c = m.c
      · obtain ⟨rfl, rfl⟩ := hpos
        rcases getCell_boardSet_or b m.r m.c m.val m.r m.c with he | he
        · rw [he] at hne ⊢
          exact hagree _ _ hr hc hne
        · rw [he]
          exact hsnd.symm
      · have hne2 : r ≠ m.r ∨ c ≠ m.c := by tauto
        rw [getCell_boardSet_ne b m.r m.c m.val r c hne2] at hne ⊢
        exact hagree r c hr hc hne

theorem boardSet_zero_agrees {b sol : Board} {size r c : Nat}
    (h : agreesWith b sol size) : agreesWith (boardSet b r c 0) sol size := by
  intro r2 c2 hr hc hne
  rcases getCell_boardSet_or b r c 0 r2 c2 with he | he
  · rw [he] at hne ⊢
    exact h r2 c2 hr hc hne
  · rw [he] at hne
    exact absurd rfl hne

theorem phase2_agrees {size : Nat} {cs : Constraints} {target : Nat} {sol : Board} :
    ∀ cells puzzle cur, agreesWith puzzle sol size →
      agreesWith (phase2 size cs target cells puzzle cur).1 sol size := by
  intro cells
  induction cells with
  | nil =>
    intro p cur h
    exact h
  | cons rc rest ih =>
    intro p cur h
    simp only [phase2]
    split
    · exact h
    · rw [phase2Step_eq]
      split
      · simp only []
        exact ih _ _ (boardSet_zero_agrees h)
      · simp only []
        exact ih _ _ h

/-- Claim C3: every level generate returns is solvable by pure logic —
solveLogically on (initialBoard, constraints) reports solved, and the
board it produces agrees with the returned solution cell for cell. -/
theorem c3_level_logically_solvable (size : Nat) (seed : Option (List Nat))
    (difficulty : Difficulty) (ent : Nat → Frac) (lvl : GeneratedLevel)
    (hsize : size % 2 = 0) (h4 : 4 ≤ size)
    (h : generate size seed difficulty ent = some lvl) :
    (solveLogically lvl.initialBoard size lvl.constraints).fst = true
    ∧ ∀ r c, r < size → c < size →
        getCell (solveLogically lvl.initialBoard size lvl.constraints).snd r c
          = getCell lvl.solution r c := by
  obtain ⟨sol, items, rng1, cells, rng2, cs1, curC, puz2, curCell, hfb, hsh1, hsh2,
    hp1, hp2, hdup, hlvl⟩ := generate_elim h
  obtain ⟨hsh, hcells, hbr, hbc, hnr, hnc⟩ := fillBoard_valid hsize hfb
  have hsolval : solValid sol size := by
    refine ⟨hcells, ?_, ?_, hnr, hnc⟩
    · intro r hr
      have := hbr r hr
      omega
    · intro c hc
      have := hbc c hc
      omega
  have hcons1 : csConsistent cs1 sol size := by
    have hsub := @phase1_sub size sol
      (ceilMulNat (size * (size - 1) + (size - 1) * size)
        (difficultySettings difficulty).1) items
      ⟨deriveH sol size, deriveV sol size⟩ (size * (size - 1) + (size - 1) * size)
    rw [hp1] at hsub
    exact csConsistent_of_sub hsub csFull_consistent
  have hsolv0 : (solveLogically sol size
      (⟨deriveH sol size, deriveV sol size⟩ : Constraints)).fst = true :=
    solveLogically_full (fun r c hr hc => by rcases hcells r c hr hc with h1 | h1 <;> omega)
  have hsolv1 : (solveLogically sol size cs1).fst = true := by
    have := @phase1_solvable size sol
      (ceilMulNat (size * (size - 1) + (size - 1) * size)
        (difficultySettings difficulty).1) items
      ⟨deriveH sol size, deriveV sol size⟩ (size * (size - 1) + (size - 1) * size) hsolv0
    rw [hp1] at this
    exact this
  have hsolv2 : (solveLogically puz2 size cs1).fst = true := by
    have := @phase2_solvable size cs1
      (ceilMulNat (size * size) (difficultySettings difficulty).2)
      cells sol (size * size) hsolv1
    rw [hp2] at this
    exact this
  have hagree2 : agreesWith puz2 sol size := by
    have := @phase2_agrees size cs1
      (ceilMulNat (size * size) (difficultySettings difficulty).2)
      sol cells sol (size * size) (fun r c _ _ _ => rfl)
    rw [hp2] at this
    exact this
  have hboard : lvl.initialBoard = puz2 := by rw [hlvl]
  have hcs : lvl.constraints = cs1 := by rw [hlvl]
  have hsol : lvl.solution = sol := by rw [hlvl]
  rw [hboard, hcs, hsol]
  refine ⟨hsolv2, ?_⟩
  have hagreeFinal : agreesWith
      (solveLoop size cs1 (countEmpty puz2 size) puz2) sol size :=
    solveLoop_agrees hsolval hcons1 (countEmpty puz2 size) puz2 hagree2
  intro r c hr hc
  have hfull : boardFull (solveLoop size cs1 (countEmpty puz2 size) puz2) size = true := hsolv2
  exact hagreeFinal r c hr hc (boardFull_filled hfull r c hr hc)

/-- Witness for C3 at the concrete seeded level of size 4. -/
theorem c3_witness :
    (4 : Nat) % 2 = 0 ∧ (4 : Nat) ≤ 4
    ∧ generate 4 (some [66]) Difficulty.medium demoEnt
        = some ((generate 4 (some [66]) Difficulty.medium demoEnt).getD ⟨[], [], ⟨[], []⟩, none⟩)
    ∧ ((solveLogically ((generate 4 (some [66]) Difficulty.medium demoEnt).getD ⟨[], [], ⟨[], []⟩, none⟩).initialBoard 4
          ((generate 4 (some [66]) Difficulty.medium demoEnt).getD ⟨[], [], ⟨[], []⟩, none⟩).constraints).fst = true
       ∧ ∀ r c, r < 4 → c < 4 →
          getCell (solveLogically ((generate 4 (some [66]) Difficulty.medium demoEnt).getD ⟨[], [], ⟨[], []⟩, none⟩).initialBoard 4
            ((generate 4 (some [66]) Difficulty.medium demoEnt).getD ⟨[], [], ⟨[], []⟩, none⟩).constraints).snd r c
            = getCell ((generate 4 (some [66]) Difficulty.medium demoEnt).getD ⟨[], [], ⟨[], []⟩, none⟩).solution r c) :=
  ⟨by decide, by decide, by decide,
    c3_level_logically_solvable 4 (some [66]) Difficulty.medium demoEnt
      ((generate 4 (some [66]) Difficulty.medium demoEnt).getD ⟨[], [], ⟨[], []⟩, none⟩)
      (by decide) (by decide) (by decide)⟩

/-! ### Counting remaining constraints and clue cells (claims C5, C6) -/

theorem countP_range_le_off {p q : Nat → Bool} (n j : Nat)
    (h : ∀ i, i < n → i ≠ j → p i = q i) :
    (List.range n).countP p ≤ (List.range n).countP q + 1 := by
  induction n with
  | zero => simp
  | succ m ih =>
    rw [countP_range_succ, countP_range_succ]
    by_cases hjm : j = m
    · have hcong := countP_range_congr m
        (fun i hi => h i (Nat.lt_succ_of_lt hi) (by omega))
    
      rw [hcong]
      split <;> split <;> omega
    · rw [h m (Nat.lt_succ_self m) (fun he => hjm he.symm)]
      have := ih (fun i hi hij => h i (Nat.lt_succ_of_lt hi) hij)
      split <;> omega

theorem sum_map_range_le (f g : Nat → Nat) (n : Nat) (h : ∀ i, i < n → f i ≤ g i) :
    ((List.range n).map f).sum ≤ ((List.range n).map g).sum := by
  induction n with
  | zero => exact Nat.le_refl _
  | succ m ih =>
    rw [List.range_succ, List.map_append, List.map_append, List.sum_append,
      List.sum_append]
    have h1 := ih (fun i hi => h i (Nat.lt_succ_of_lt hi))
    have h2 := h m (Nat.lt_succ_self m)
    simp only [List.map_cons, List.map_nil, List.sum_cons, List.sum_nil]
    omega

theorem sum_map_range_le_off (f g : Nat → Nat) (n j : Nat)
    (h : ∀ i, i < n → i ≠ j → f i = g i) (hj : f j ≤ g j + 1) :
    ((List.range n).map f).sum ≤ ((List.range n).map g).sum + 1 := by
  induction n with
  | zero => simp
  | succ m ih =>
    rw [List.range_succ, List.map_append, List.map_append, List.sum_append,
      List.sum_append]
    simp only [List.map_cons, List.map_nil, List.sum_cons, List.sum_nil]
    by_cases hjm : j = m
    · have hcong : (List.range m).map f = (List.range m).map g := by
        apply List.map_congr_left
        intro i hi
        exact h i (Nat.lt_succ_of_lt (List.mem_range.mp hi)) (by
          have := List.mem_range.mp hi
          omega)
      rw [hcong, ← hjm]
      omega
    · have h1 := ih (fun i hi hij => h i (Nat.lt_succ_of_lt hi) hij)
      rw [h m (Nat.lt_succ_self m) (fun he => hjm he.symm)]
      omega

theorem countP_range_all_true {p : Nat → Bool} (n : Nat)
    (h : ∀ i, i < n → p i = true) : (List.range n).countP p = n := by
  induction n with
  | zero => rfl
  | succ m ih =>
    rw [countP_range_succ, ih (fun i hi => h i (Nat.lt_succ_of_lt hi)),
      h m (Nat.lt_succ_self m)]
    simp

theorem sum_map_range_const (k n : Nat) :
    ((List.range n).map fun _ => k).sum = n * k := by
  induction n with
  | zero => simp
  | succ m ih =>
    rw [List.range_succ, List.map_append, List.sum_append, ih, Nat.succ_mul]
    simp

theorem getSym_setSym_ne (g : ConstraintGrid) (r c : Nat) (s : Option CSym)
    (r2 c2 : Nat) (h : r2 ≠ r ∨ c2 ≠ c) :
    getSym (setSym g r c s) r2 c2 = getSym g r2 c2 := by
  unfold getSym setSym
  rcases h with h | h
  · rw [getD_set_ne _ _ _ (fun he => h he.symm)]
  · by_cases hr : r2 = r
    · subst hr
      rcases Nat.lt_or_ge r2 g.length with hlt | hge
      · rw [getD_set_self _ _ _ _ hlt, getD_set_ne _ _ _ (fun he => h he.symm)]
      · rw [List.set_eq_of_length_le hge]
    · rw [getD_set_ne _ _ _ (fun he => hr he.symm)]


theorem countH_set_le (g : ConstraintGrid) (size r c : Nat) :
    countH (setSym g r c none) size ≤ countH g size := by
  unfold countH
  apply sum_map_range_le
  intro i hi
  apply countP_range_le
  intro j hj hpj
  simp only [] at hpj ⊢
  rcases getSym_setSym_or g r c none i j with he | he
  · rw [← he]
    exact hpj
  · rw [he] at hpj
    exact absurd hpj (by simp)

theorem countH_le_set (g : ConstraintGrid) (size r c : Nat) :
    countH g size ≤ countH (setSym g r c none) size + 1 := by
  unfold countH
  apply sum_map_range_le_off _ _ size r
  · intro i hi hir
    apply countP_range_congr
    intro j hj
    rw [getSym_setSym_ne g r c none i j (Or.inl hir)]
  · apply countP_range_le_off
    intro j hj hjc
    rw [getSym_setSym_ne g r c none r j (Or.inr hjc)]

theorem countV_set_le (g : ConstraintGrid) (size r c : Nat) :
    countV (setSym g r c none) size ≤ countV g size := by
  unfold countV
  apply sum_map_range_le
  intro i hi
  apply countP_range_le
  intro j hj hpj
  simp only [] at hpj ⊢
  rcases getSym_setSym_or g r c none i j with he | he
  · rw [← he]
    exact hpj
  · rw [he] at hpj
    exact absurd hpj (by simp)

theorem countV_le_set (g : ConstraintGrid) (size r c : Nat) :
    countV g size ≤ countV (setSym g r c none) size + 1 := by
  unfold countV
  apply sum_map_range_le_off _ _ (size - 1) r
  · intro i hi hir
    apply countP_range_congr
    intro j hj
    rw [getSym_setSym_ne g r c none i j (Or.inl hir)]
  · apply countP_range_le_off
    intro j hj hjc
    rw [getSym_setSym_ne g r c none r j (Or.inr hjc)]

theorem countFilled_set_le (b : Board) (size r c : Nat) :
    countFilled (boardSet b r c 0) size ≤ countFilled b size := by
  unfold countFilled
  apply sum_map_range_le
  intro i hi
  apply countP_range_le
  intro j hj hpj
  simp only [] at hpj ⊢
  rcases getCell_boardSet_or b r c 0 i j with he | he
  · rw [← he]
    exact hpj
  · rw [he] at hpj
    exact absurd hpj (by simp)

theorem countFilled_le_set (b : Board) (size r c : Nat) :
    countFilled b size ≤ countFilled (boardSet b r c 0) size + 1 := by
  unfold countFilled
  apply sum_map_range_le_off _ _ size r
  · intro i hi hir
    apply countP_range_congr
    intro j hj
    rw [getCell_boardSet_ne b r c 0 i j (Or.inl hir)]
  · apply countP_range_le_off
    intro j hj hjc
    rw [getCell_boardSet_ne b r c 0 r j (Or.inr hjc)]

theorem countSymsIn_full {sol : Board} {size : Nat} :
    countSymsIn ⟨deriveH sol size, deriveV sol size⟩ size
      = size * (size - 1) + (size - 1) * size := by
  unfold countSymsIn countH countV
  simp only []
  have h1 : ((List.range size).map fun r =>
      (List.range (size - 1)).countP fun c => (getSym (deriveH sol size) r c).isSome)
      = (List.range size).map fun _ => size - 1 := by
    apply List.map_congr_left
    intro r hr
    apply countP_range_all_true
    intro c hc
    rw [deriveH_getSym (List.mem_range.mp hr) hc]
    rfl
  have h2 : ((List.range (size - 1)).map fun r =>
      (List.range size).countP fun c => (getSym (deriveV sol size) r c).isSome)
      = (List.range (size - 1)).map fun _ => size := by
    apply List.map_congr_left
    intro r hr
    apply countP_range_all_true
    intro c hc
    rw [deriveV_getSym (List.mem_range.mp hr) hc]
    rfl
  rw [h1, h2, sum_map_range_const, sum_map_range_const]

theorem countFilled_full {b : Board} {size : Nat}
    (h : ∀ r c, r < size → c < size → getCell b r c ≠ 0) :
    countFilled b size = size * size := by
  unfold countFilled
  have h1 : ((List.range size).map fun r =>
      (List.range size).countP fun c => getCell b r c != 0)
      = (List.range size).map fun _ => size := by
    apply List.map_congr_left
    intro r hr
    apply countP_range_all_true
    intro c hc
    simp [h r c (List.mem_range.mp hr) hc]
  rw [h1, sum_map_range_const]

theorem ceilMulNat_le (n : Nat) (q : Frac) (h : q.num ≤ q.den) (hd : 0 < q.den) :
    ceilMulNat n q ≤ n := by
  unfold ceilMulNat
  have h2 : n * q.num + q.den - 1 < (n + 1) * q.den := by
    have h3 := Nat.mul_le_mul_left n h
    have h4 : (n + 1) * q.den = n * q.den + q.den := by ring
    omega
  have := (Nat.div_lt_iff_lt_mul hd).mpr h2
  omega

theorem ceilMulNat_eq_ceil (n a d : Nat) (hd : 0 < d) :
    ((ceilMulNat n ⟨a, d⟩ : Nat) : Int) = ⌈((n : ℚ) * (a : ℚ)) / (d : ℚ)⌉ := by
  have hred : ceilMulNat n ⟨a, d⟩ = (n * a + d - 1) / d := rfl
  rw [hred]
  have hdm := Nat.div_add_mod (n * a + d - 1) d
  have hmod : (n * a + d - 1) % d < d := Nat.mod_lt _ hd
  set z := (n * a + d - 1) / d with hz
  have h1 : n * a ≤ d * z := by omega
  have h2 : d * z + 1 ≤ n * a + d := by omega
  have hdq : (0 : ℚ) < (d : ℚ) := by exact_mod_cast hd
  have h1q : (n : ℚ) * (a : ℚ) ≤ (d : ℚ) * (z : ℚ) := by exact_mod_cast h1
  have h2q : (d : ℚ) * (z : ℚ) + 1 ≤ (n : ℚ) * (a : ℚ) + (d : ℚ) := by
    exact_mod_cast h2
  rw [eq_comm, Int.ceil_eq_iff]
  constructor
  · rw [lt_div_iff hdq]
    push_cast
    have hexp : ((z : ℚ) - 1) * (d : ℚ) = (d : ℚ) * (z : ℚ) - (d : ℚ) := by ring
    rw [hexp]
    linarith
  · rw [div_le_iff hdq]
    push_cast
    linarith

theorem countSymsIn_setH (cs : Constraints) (size r c : Nat) :
    countSymsIn ⟨setSym cs.h r c none, cs.v⟩ size ≤ countSymsIn cs size
      ∧ countSymsIn cs size ≤ countSymsIn ⟨setSym cs.h r c none, cs.v⟩ size + 1 := by
  have h1 := countH_set_le cs.h size r c
  have h2 := countH_le_set cs.h size r c
  unfold countSymsIn
  simp only []
  omega

theorem countSymsIn_setV (cs : Constraints) (size r c : Nat) :
    countSymsIn ⟨cs.h, setSym cs.v r c none⟩ size ≤ countSymsIn cs size
      ∧ countSymsIn cs size ≤ countSymsIn ⟨cs.h, setSym cs.v r c none⟩ size + 1 := by
  have h1 := countV_set_le cs.v size r c
  have h2 := countV_le_set cs.v size r c
  unfold countSymsIn
  simp only []
  omega

theorem phase1_mono (size : Nat) (puzzle : Board) (target : Nat) :
    ∀ items cs cur,
      countSymsIn (phase1 size puzzle target items cs cur).1 size ≤ countSymsIn cs size := by
  intro items
  induction items with
  | nil =>
    intro cs cur
    exact Nat.le_refl _
  | cons item rest ih =>
    intro cs cur
    simp only [phase1]
    split
    · exact Nat.le_refl _
    · cases item with
      | hSlot r c =>
        rw [phase1Step_hSlot]
        split
        · simp only []
          exact Nat.le_trans (ih _ _) (countSymsIn_setH cs size r c).1
        · simp only []
          exact ih _ _
      | vSlot r c =>
        rw [phase1Step_vSlot]
        split
        · simp only []
          exact Nat.le_trans (ih _ _) (countSymsIn_setV cs size r c).1
        · simp only []
          exact ih _ _

theorem phase2_mono (size : Nat) (cs : Constraints) (target : Nat) :
    ∀ cells puzzle cur,
      countFilled (phase2 size cs target cells puzzle cur).1 size
        ≤ countFilled puzzle size := by
  intro cells
  induction cells with
  | nil =>
    intro p cur
    exact Nat.le_refl _
  | cons rc rest ih =>
    intro p cur
    simp only [phase2]
    split
    · exact Nat.le_refl _
    · rw [phase2Step_eq]
      split
      · simp only []
        exact Nat.le_trans (ih _ _) (countFilled_set_le p size rc.1 rc.2)
      · simp only []
        exact ih _ _

theorem phase1_counter_le (size : Nat) (puzzle : Board) (target : Nat) :
    ∀ items cs cur, cur ≤ countSymsIn cs size →
      (phase1 size puzzle target items cs cur).2
        ≤ countSymsIn (phase1 size puzzle target items cs cur).1 size := by
  intro items
  induction items with
  | nil =>
    intro cs cur h
    exact h
  | cons item rest ih =>
    intro cs cur h
    simp only [phase1]
    split
    · exact h
    · cases item with
      | hSlot r c =>
        rw [phase1Step_hSlot]
        split
        · simp only []
          have hb := countSymsIn_setH cs size r c
          exact ih _ _ (by omega)
        · simp only []
          exact ih _ _ h
      | vSlot r c =>
        rw [phase1Step_vSlot]
        split
        · simp only []
          have hb := countSymsIn_setV cs size r c
          exact ih _ _ (by omega)
        · simp only []
          exact ih _ _ h

theorem phase2_counter_le (size : Nat) (cs : Constraints) (target : Nat) :
    ∀ cells puzzle cur, cur ≤ countFilled puzzle size →
      (phase2 size cs target cells puzzle cur).2
        ≤ countFilled (phase2 size cs target cells puzzle cur).1 size := by
  intro cells
  induction cells with
  | nil =>
    intro p cur h
    exact h
  | cons rc rest ih =>
    intro p cur h
    simp only [phase2]
    split
    · exact h
    · rw [phase2Step_eq]
      split
      · simp only []
        have hb1 := countFilled_set_le p size rc.1 rc.2
        have hb2 := countFilled_le_set p size rc.1 rc.2
        exact ih _ _ (by omega)
      · simp only []
        exact ih _ _ h

theorem phase1_cur_ge (size : Nat) (puzzle : Board) (target : Nat) :
    ∀ items cs cur, target ≤ cur →
      target ≤ (phase1 size puzzle target items cs cur).2 := by
  intro items
  induction items with
  | nil =>
    intro cs cur h
    exact h
  | cons item rest ih =>
    intro cs cur h
    simp only [phase1]
    split
    · exact h
    · rename_i hgt
      cases item with
      | hSlot r c =>
        rw [phase1Step_hSlot]
        split
        · simp only []
          exact ih _ _ (by omega)
        · simp only []
          exact ih _ _ h
      | vSlot r c =>
        rw [phase1Step_vSlot]
        split
        · simp only []
          exact ih _ _ (by omega)
        · simp only []
          exact ih _ _ h

theorem phase2_cur_ge (size : Nat) (cs : Constraints) (target : Nat) :
    ∀ cells puzzle cur, target ≤ cur →
      target ≤ (phase2 size cs target cells puzzle cur).2 := by
  intro cells
  induction cells with
  | nil =>
    intro p cur h
    exact h
  | cons rc rest ih =>
    intro p cur h
    simp only [phase2]
    split
    · exact h
    · rename_i hgt
      rw [phase2Step_eq]
      split
      · simp only []
        exact ih _ _ (by omega)
      · simp only []
        exact ih _ _ h

theorem difficultySettings_bounds (d : Difficulty) :
    (difficultySettings d).1.num ≤ (difficultySettings d).1.den
    ∧ 0 < (difficultySettings d).1.den
    ∧ (difficultySettings d).2.num ≤ (difficultySettings d).2.den
    ∧ 0 < (difficultySettings d).2.den := by
  cases d <;> decide

/-- Claim C5: during reduction, generate stops removing constraints as soon
as the counter of remaining constraints is at most
ceil(totalConstraints x constraintsKeepFraction) with
totalConstraints = 2 N (N-1), and stops removing cells as soon as the
counter of remaining filled cells is at most ceil(N^2 x cellsKeepFraction);
the fraction pairs are medium (0.06, 0.03), hard (0.03, 0.015),
expert (0.01, 0.005); the integer target formula is the mathematical
ceiling; both final remaining counts are at least their targets; and all
constraint slots are processed (phase 1, against the full solution board)
before any cell is processed (phase 2, against the already-reduced
constraint set). -/
theorem c5_reduction_stopping (size : Nat) (seed : Option (List Nat))
    (difficulty : Difficulty) (ent : Nat → Frac) (lvl : GeneratedLevel)
    (hsize : size % 2 = 0)
    (h : generate size seed difficulty ent = some lvl) :
    (difficultySettings Difficulty.medium = (⟨6, 100⟩, ⟨3, 100⟩)
      ∧ difficultySettings Difficulty.hard = (⟨3, 100⟩, ⟨15, 1000⟩)
      ∧ difficultySettings Difficulty.expert = (⟨1, 100⟩, ⟨5, 1000⟩))
    ∧ size * (size - 1) + (size - 1) * size = 2 * size * (size - 1)
    ∧ (∀ n a d : Nat, 0 < d →
        ((ceilMulNat n ⟨a, d⟩ : Nat) : Int) = ⌈((n : ℚ) * (a : ℚ)) / (d : ℚ)⌉)
    ∧ (∀ puzzle target item rest cs2 cur, cur ≤ target →
        phase1 size puzzle target (item :: rest) cs2 cur = (cs2, cur))
    ∧ (∀ cs2 target rc rest puzzle cur, cur ≤ target →
        phase2 size cs2 target (rc :: rest) puzzle cur = (puzzle, cur))
    ∧ ceilMulNat (size * (size - 1) + (size - 1) * size)
        (difficultySettings difficulty).1 ≤ countSymsIn lvl.constraints size
    ∧ ceilMulNat (size * size) (difficultySettings difficulty).2
        ≤ countFilled lvl.initialBoard size
    ∧ (∃ sol items rng1 cells rng2 curC,
        fillBoard size (size * size) (createEmptyBoard size) 0 0 = some sol
        ∧ shuffle ent (ConsItem.hSlot 0 0) (consItems size) (initialRng seed)
            = (items, rng1)
        ∧ shuffle ent ((0 : Nat), (0 : Nat)) (cellItems size) rng1 = (cells, rng2)
        ∧ phase1 size sol
            (ceilMulNat (size * (size - 1) + (size - 1) * size)
              (difficultySettings difficulty).1)
            items ⟨deriveH sol size, deriveV sol size⟩
            (size * (size - 1) + (size - 1) * size) = (lvl.constraints, curC)
        ∧ (phase2 size lvl.constraints
            (ceilMulNat (size * size) (difficultySettings difficulty).2)
            cells sol (size * size)).1 = lvl.initialBoard) := by
  obtain ⟨sol, items, rng1, cells, rng2, cs1, curC, puz2, curCell,
    hfb, hsh1, hsh2, hp1, hp2, hdup, hlvl⟩ := generate_elim h
  have hlc : lvl.constraints = cs1 := by rw [hlvl]
  have hlb : lvl.initialBoard = puz2 := by rw [hlvl]
  have hdb := difficultySettings_bounds difficulty
  have htot1 : ceilMulNat (size * (size - 1) + (size - 1) * size)
      (difficultySettings difficulty).1 ≤ size * (size - 1) + (size - 1) * size :=
    ceilMulNat_le _ _ hdb.1 hdb.2.1
  have hg1 := phase1_cur_ge size sol
    (ceilMulNat (size * (size - 1) + (size - 1) * size) (difficultySettings difficulty).1)
    items ⟨deriveH sol size, deriveV sol size⟩
    (size * (size - 1) + (size - 1) * size) htot1
  have hl1 := phase1_counter_le size sol
    (ceilMulNat (size * (size - 1) + (size - 1) * size) (difficultySettings difficulty).1)
    items ⟨deriveH sol size, deriveV sol size⟩
    (size * (size - 1) + (size - 1) * size)
    (by rw [@countSymsIn_full sol size])
  rw [hp1] at hg1 hl1
  have hv := fillBoard_valid hsize hfb
  have hsolfull : countFilled sol size = size * size :=
    countFilled_full (fun r c hr hc => by
      rcases hv.2.1 r c hr hc with h1 | h1 <;> omega)
  have htot2 : ceilMulNat (size * size) (difficultySettings difficulty).2
      ≤ size * size := ceilMulNat_le _ _ hdb.2.2.1 hdb.2.2.2
  have hg2 := phase2_cur_ge size cs1
    (ceilMulNat (size * size) (difficultySettings difficulty).2)
    cells sol (size * size) htot2
  have hl2 := phase2_counter_le size cs1
    (ceilMulNat (size * size) (difficultySettings difficulty).2)
    cells sol (size * size) (by rw [hsolfull])
  rw [hp2] at hg2 hl2
  refine ⟨⟨rfl, rfl, rfl⟩, by ring, fun n a d hd => ceilMulNat_eq_ceil n a d hd,
    ?_, ?_, ?_, ?_, ?_⟩
  · intro puzzle target item rest cs2 cur hle
    simp only [phase1]
    rw [if_pos hle]
  · intro cs2 target rc rest puzzle cur hle
    simp only [phase2]
    rw [if_pos hle]
  · rw [hlc]
    exact Nat.le_trans hg1 hl1
  · rw [hlb]
    exact Nat.le_trans hg2 hl2
  · exact ⟨sol, items, rng1, cells, rng2, curC, hfb, hsh1, hsh2,
      by rw [hlc]; exact hp1, by rw [hlc, hlb, hp2]⟩

/-- Concrete instantiation of the C5 theorem at size 4, seed "A",
difficulty medium. -/
theorem c5_witness :
    (4 : Nat) % 2 = 0
    ∧ generate 4 (some [65]) Difficulty.medium demoEnt = some demoLevelSeeded
    ∧ ceilMulNat (4 * (4 - 1) + (4 - 1) * 4) (difficultySettings Difficulty.medium).1
        ≤ countSymsIn demoLevelSeeded.constraints 4 :=
  ⟨by decide, by decide,
    (c5_reduction_stopping 4 (some [65]) Difficulty.medium demoEnt demoLevelSeeded
      (by decide) (by decide)).2.2.2.2.2.1⟩

/-- Claim C6: every reduction step is atomic: a rejected tentative removal
(constraint symbol set to None, or cell set to Empty, after which the
deduction engine does not solve the puzzle) restores the prior value
exactly, leaving puzzle and constraints unchanged; every retained removal
leaves (puzzle, constraints) logically solvable; and the counts of
remaining constraint symbols and of remaining clue cells are monotonically
non-increasing over each entire reduction phase. -/
theorem c6_reduction_atomicity (size : Nat) (puzzle b : Board) (cs : Constraints)
    (cur targetC targetCell r c : Nat) (rc : Nat × Nat) (item : ConsItem)
    (items : List ConsItem) (cells : List (Nat × Nat)) :
    ((solveLogically puzzle size ⟨setSym cs.h r c none, cs.v⟩).fst = false →
      phase1Step size puzzle cs cur (ConsItem.hSlot r c) = (cs, cur))
    ∧ ((solveLogically puzzle size ⟨cs.h, setSym cs.v r c none⟩).fst = false →
      phase1Step size puzzle cs cur (ConsItem.vSlot r c) = (cs, cur))
    ∧ ((solveLogically (boardSet b rc.1 rc.2 0) size cs).fst = false →
      phase2Step size cs b cur rc = (b, cur))
    ∧ ((phase1Step size puzzle cs cur item).1 ≠ cs →
      (solveLogically puzzle size (phase1Step size puzzle cs cur item).1).fst = true)
    ∧ ((phase2Step size cs b cur rc).1 ≠ b →
      (solveLogically (phase2Step size cs b cur rc).1 size cs).fst = true)
    ∧ countSymsIn (phase1 size puzzle targetC items cs cur).1 size
        ≤ countSymsIn cs size
    ∧ countFilled (phase2 size cs targetCell cells b cur).1 size
        ≤ countFilled b size := by
  refine ⟨?_, ?_, ?_, ?_, ?_,
    phase1_mono size puzzle targetC items cs cur,
    phase2_mono size cs targetCell cells b cur⟩
  · intro hf
    rw [phase1Step_hSlot, if_neg (by simp [hf])]
  · intro hf
    rw [phase1Step_vSlot, if_neg (by simp [hf])]
  · intro hf
    rw [phase2Step_eq, if_neg (by simp [hf])]
  · intro hne
    cases item with
    | hSlot r2 c2 =>
      rw [phase1Step_hSlot] at hne ⊢
      by_cases hs : (solveLogically puzzle size ⟨setSym cs.h r2 c2 none, cs.v⟩).fst = true
      · rw [if_pos hs]
        exact hs
      · rw [if_neg hs] at hne
        exact absurd rfl hne
    | vSlot r2 c2 =>
      rw [phase1Step_vSlot] at hne ⊢
      by_cases hs : (solveLogically puzzle size ⟨cs.h, setSym cs.v r2 c2 none⟩).fst = true
      · rw [if_pos hs]
        exact hs
      · rw [if_neg hs] at hne
        exact absurd rfl hne
  · intro hne
    rw [phase2Step_eq] at hne ⊢
    by_cases hs : (solveLogically (boardSet b rc.1 rc.2 0) size cs).fst = true
    · rw [if_pos hs]
      exact hs
    · rw [if_neg hs] at hne
      exact absurd rfl hne

/-- Concrete instantiation of the C6 theorem on the demo level. -/
theorem c6_witness :
    countSymsIn (phase1 4 demoLevelSeeded.solution 2 [ConsItem.hSlot 0 0]
        ⟨deriveH demoLevelSeeded.solution 4, deriveV demoLevelSeeded.solution 4⟩ 24).1 4
      ≤ countSymsIn
          ⟨deriveH demoLevelSeeded.solution 4, deriveV demoLevelSeeded.solution 4⟩ 4 :=
  (c6_reduction_atomicity 4 demoLevelSeeded.solution demoLevelSeeded.solution
    ⟨deriveH demoLevelSeeded.solution 4, deriveV demoLevelSeeded.solution 4⟩
    24 2 1 0 0 (0, 0) (ConsItem.hSlot 0 0) [ConsItem.hSlot 0 0] [(0, 0)]).2.2.2.2.2.1
